import Mathlib

/-!
Verification of the epubHighlighter dictionary core against its specification.

The development shallowly embeds the Python modules `dictionary_lookup.py`,
`parse.py` and `parse_oald.py`.  HTML values are modelled as a tree of nodes
(`Node`), corresponding to the tag tree BeautifulSoup builds with the
`html.parser` backend; a rendered HTML string corresponds to the
serialization (`decodeList`) of such a tree.  Python `str` helpers
(`strip`, `lower`, …) are modelled on `List Char`.  The dictionary sources
(pystardict-backed files) are modelled as function parameters.
-/

-- ---------------------------------------------------------------------------
-- Python-style string primitives
-- ---------------------------------------------------------------------------

/-- Whitespace characters stripped by Python `str.strip()` (ASCII range). -/
def isWsChar (c : Char) : Bool :=
  decide (c.toNat = 32 ∨ c.toNat = 9 ∨ c.toNat = 10 ∨ c.toNat = 13 ∨ c.toNat = 11 ∨ c.toNat = 12)

def lstripL (l : List Char) : List Char := l.dropWhile isWsChar

def rstripL (l : List Char) : List Char := (l.reverse.dropWhile isWsChar).reverse

def stripBothL (l : List Char) : List Char := lstripL (rstripL l)

/-- Model of Python `str.strip()`. -/
def pyStrip (s : String) : String := String.mk (stripBothL s.data)

/-- ASCII lowercasing of one character, as Python `str.lower()` acts on the
letters appearing in this code base (non-ASCII characters are unchanged). -/
def lowerChar (c : Char) : Char :=
  if 65 ≤ c.toNat ∧ c.toNat ≤ 90 then Char.ofNat (c.toNat + 32) else c

/-- Model of Python `str.lower()`. -/
def lowerStr (s : String) : String := String.mk (s.data.map lowerChar)

/-- Model of Python `str.startswith`. -/
def pyStartsWith (s pre : String) : Bool := pre.data.isPrefixOf s.data

/-- Model of Python `str.endswith`. -/
def pyEndsWith (s suf : String) : Bool := suf.data.isSuffixOf s.data

def collapseWsGo (prevWs : Bool) : List Char → List Char
  | [] => []
  | c :: rest =>
    if isWsChar c then
      if prevWs then collapseWsGo true rest else ' ' :: collapseWsGo true rest
    else c :: collapseWsGo false rest

/-- Model of `_normalize_ws`: collapse whitespace runs to one space, then strip. -/
def normWs (s : String) : String := String.mk (stripBothL (collapseWsGo false s.data))

def isDigitChar (c : Char) : Bool := decide (48 ≤ c.toNat ∧ c.toNat ≤ 57)

def isUpperAlphaChar (c : Char) : Bool := decide (65 ≤ c.toNat ∧ c.toNat ≤ 90)

def isLowerAlphaChar (c : Char) : Bool := decide (97 ≤ c.toNat ∧ c.toNat ≤ 122)

def isAlphaChar (c : Char) : Bool := isUpperAlphaChar c || isLowerAlphaChar c

def apostropheChar : Char := Char.ofNat 39

/-- Characters allowed after the first letter of a cross-reference target by
the regexes in `_extract_cross_reference` (the class of letters, apostrophe,
underscore and hyphen). -/
def isTargetChar (c : Char) : Bool := isAlphaChar c || c = apostropheChar || c = '_' || c = '-'

/-- Number of whitespace-separated words, as `len(raw.split())` computes it. -/
def wordCountGo (inWord : Bool) : List Char → Nat
  | [] => 0
  | c :: rest =>
    if isWsChar c then wordCountGo false rest
    else if inWord then wordCountGo true rest else 1 + wordCountGo true rest

def wordCount (s : String) : Nat := wordCountGo false s.data

/-- Substring test, as the Python `in` operator on strings. -/
def subOccurs (needle : String) : List Char → Bool
  | [] => needle.data.isPrefixOf []
  | c :: rest => needle.data.isPrefixOf (c :: rest) || subOccurs needle rest

-- ---------------------------------------------------------------------------
-- The HTML tag-tree model
-- ---------------------------------------------------------------------------

/-- A node of the tag tree BeautifulSoup builds: either a text node
(NavigableString) or an element with a name, attributes and children. -/
inductive Node where
  | text (s : String)
  | elem (name : String) (attrs : List (String × String)) (children : List Node)

def childrenOf : Node → List Node
  | .text _ => []
  | .elem _ _ cs => cs

def isElemNamed (nm : String) : Node → Bool
  | .text _ => false
  | .elem n _ _ => n = nm

def attrGet (attrs : List (String × String)) (key : String) : String :=
  (attrs.lookup key).getD ""

/-- Serialization of one text character, as `html.parser` output escapes text. -/
def escTextChar (c : Char) : String :=
  if c = '&' then "&amp;" else if c = '<' then "&lt;" else if c = '>' then "&gt;"
  else String.singleton c

def escText (s : String) : String := String.join (s.data.map escTextChar)

def escAttrChar (c : Char) : String :=
  if c = '&' then "&amp;" else if c = '<' then "&lt;" else if c = '>' then "&gt;"
  else if c = '"' then "&quot;" else String.singleton c

def escAttrVal (s : String) : String := String.join (s.data.map escAttrChar)

def attrStr (p : String × String) : String :=
  " " ++ p.1 ++ "=\"" ++ escAttrVal p.2 ++ "\""

mutual
/-- Serialization of a node back to markup, modelling `Tag.decode()`. -/
def decodeNode : Node → String
  | .text s => escText s
  | .elem nm attrs cs =>
    "<" ++ nm ++ String.join (attrs.map attrStr) ++ ">" ++ decodeList cs ++ "</" ++ nm ++ ">"
/-- Serialization of a node list, modelling `decode_contents` of their parent. -/
def decodeList : List Node → String
  | [] => ""
  | n :: ns => decodeNode n ++ decodeList ns
end

mutual
/-- All descendant strings of a node in document order (`find_all(string=True)`). -/
def nodeStrings : Node → List String
  | .text s => [s]
  | .elem _ _ cs => listStrings cs
def listStrings : List Node → List String
  | [] => []
  | n :: ns => nodeStrings n ++ listStrings ns
end

/-- Model of `get_text(" ", strip=True)`: each descendant string stripped,
empty results skipped, the rest joined with single spaces. -/
def textJoinSpace (l : List String) : String :=
  String.intercalate " " ((l.map pyStrip).filter (fun s => s != ""))

/-- Model of `get_text(strip=True)` (no separator). -/
def textJoinConcat (l : List String) : String :=
  String.join ((l.map pyStrip).filter (fun s => s != ""))

def getTextSpace (cs : List Node) : String := textJoinSpace (listStrings cs)

def getTextConcat (cs : List Node) : String := textJoinConcat (listStrings cs)

def getTextSpaceN (n : Node) : String := textJoinSpace (nodeStrings n)

def getTextConcatN (n : Node) : String := textJoinConcat (nodeStrings n)

/-- Model of `_tag_to_text` / `_tag_text`: normalized whitespace of the
space-joined stripped text. -/
def nodeTagText (n : Node) : String := normWs (getTextSpaceN n)

/-- Model of `_tag_to_html` / `_tag_html`: `decode_contents().strip()`. -/
def nodeTagHtml (n : Node) : String := pyStrip (decodeList (childrenOf n))

mutual
/-- First matching node in pre-order (BeautifulSoup `find` over descendants,
applied to a node itself first; `findInList` is the descendant search). -/
def findInNode (p : Node → Bool) : Node → Option Node
  | .text s => if p (.text s) then some (.text s) else none
  | .elem nm a cs => if p (.elem nm a cs) then some (.elem nm a cs) else findInList p cs
def findInList (p : Node → Bool) : List Node → Option Node
  | [] => none
  | n :: ns =>
    match findInNode p n with
    | some r => some r
    | none => findInList p ns
end

mutual
/-- Remove the first node (pre-order) satisfying `p`, modelling
`PageElement.extract()` of a `find` result: no parent clean-up. -/
def extractNode (p : Node → Bool) : Node → Option Node × Bool
  | .text s => if p (.text s) then (none, true) else (some (.text s), false)
  | .elem nm a cs =>
    if p (.elem nm a cs) then (none, true)
    else
      let r := extractFromList p cs
      (some (.elem nm a r.1), r.2)
def extractFromList (p : Node → Bool) : List Node → List Node × Bool
  | [] => ([], false)
  | n :: ns =>
    match extractNode p n with
    | (some x, true) => (x :: ns, true)
    | (some x, false) =>
      let r := extractFromList p ns
      (x :: r.1, r.2)
    | (none, _) => (ns, true)
end

mutual
/-- Search one node for the first element (pre-order) satisfying `p`; on a
hit, remove it and, when its parent element is left without
`get_text(strip=True)` text, remove that parent too (one level, as the Python
callers do).  The result is the replacement for the node, the removed node,
and whether the removed node was this node itself (so that the caller, one
level up, owns the parent check for it). -/
def removeMarkN (p : Node → Bool) (n : Node) : Option (List Node × Node × Bool) :=
  if p n then some ([], n, true)
  else
    match n with
    | .text _ => none
    | .elem nm a cs =>
      match removeMark p cs with
      | some (cs2, d, topInner) =>
        let kept : List Node :=
          if topInner ∧ getTextConcat cs2 = "" then [] else [.elem nm a cs2]
        some (kept, d, false)
      | none => none
/-- List version of `removeMarkN`: the `Bool` is true when the removed node
was a direct child of this list. -/
def removeMark (p : Node → Bool) : List Node → Option (List Node × Node × Bool)
  | [] => none
  | n :: ns =>
    match removeMarkN p n with
    | some (repl, d, top) => some (repl ++ ns, d, top)
    | none =>
      match removeMark p ns with
      | some (r, d, top) => some (n :: r, d, top)
      | none => none
end

-- ---------------------------------------------------------------------------
-- Resolver classification and sanitization (dictionary_lookup.py)
-- ---------------------------------------------------------------------------

/-- Model of `HTMLDefinitionLookup._is_valid_definition` (lines 164-182).  The
Python input is an HTML string; here it is the corresponding tag tree, and the
string's emptiness test is the emptiness of its serialization. -/
def isValidDefinition (d : List Node) : Bool :=
  if decodeList d = "" then false
  else
    let text := getTextSpace d
    if text = "" then false
    else
      let normalized := lowerStr text
      let stripped := pyStrip normalized
      if pyStartsWith stripped "see " then false
      else if pyStartsWith stripped "see also " then false
      else if pyStartsWith stripped "→" then false
      else if pyStartsWith stripped "none. →" then false
      else true

/-- Search for the pattern `→\s*([A-Za-z][A-Za-z'_-]*)` (first match in the
text, scanning candidate arrow positions left to right). -/
def arrowSearch : List Char → Option (List Char)
  | [] => none
  | c :: rest =>
    if c = '→' then
      let afterWs := rest.dropWhile isWsChar
      match afterWs with
      | d :: tl => if isAlphaChar d then some (d :: tl.takeWhile isTargetChar) else arrowSearch rest
      | [] => arrowSearch rest
    else arrowSearch rest

/-- The `\s+([A-Za-z][A-Za-z'_-]*)` tail of the "see" regex: at least one
whitespace character, then a letter, then the maximal run of target
characters. -/
def grabTarget (l : List Char) : Option (List Char) :=
  if (l.takeWhile isWsChar) = [] then none
  else
    match l.dropWhile isWsChar with
    | d :: tl => if isAlphaChar d then some (d :: tl.takeWhile isTargetChar) else none
    | [] => none

/-- The greedy `(?:\s+also)\s+(target)` attempt of the "see" regex: a
whitespace run, the word "also" (case-insensitively), then the target tail. -/
def seeAlsoTry (rest : List Char) : Option (List Char) :=
  if (rest.takeWhile isWsChar) = [] then none
  else if ("also".data).isPrefixOf ((rest.dropWhile isWsChar).map lowerChar) then
    grabTarget ((rest.dropWhile isWsChar).drop 4)
  else none

/-- Match `(?i)\bsee(?:\s+also)?\s+([A-Za-z][A-Za-z'_-]*)` at the start of the
list (with the regex backtracking over the optional "also" group). -/
def seeMatch (l : List Char) : Option (List Char) :=
  if ("see".data).isPrefixOf (l.map lowerChar) then
    match seeAlsoTry (l.drop 3) with
    | some t => some t
    | none => grabTarget (l.drop 3)
  else none

/-- Model of `HTMLDefinitionLookup._extract_cross_reference` (lines 184-200). -/
def extractCrossReference (d : List Node) : Option String :=
  if decodeList d = "" then none
  else
    let text := getTextSpace d
    if text = "" then none
    else
      match arrowSearch text.data with
      | some t => some (String.mk t)
      | none =>
        match seeMatch (pyStrip text).data with
        | some t => some (String.mk t)
        | none => none

/-- Letters-only lowercased form used by `_should_drop`:
`re.sub(r"[^a-z]", "", text.lower())`. -/
def lettersOnlyStr (s : String) : String :=
  String.mk ((s.data.map lowerChar).filter isLowerAlphaChar)

/-- Full match of `\[[^\]]+\]`: a bracket-enclosed non-empty run without `]`. -/
def isBracketed (l : List Char) : Bool :=
  match l with
  | '[' :: rest =>
    match rest.reverse with
    | ']' :: midRev => midRev ≠ [] && midRev.all (fun c => c ≠ ']')
    | _ => false
  | _ => false

/-- Model of the nested `_should_drop` in `_strip_unwanted_segments`. -/
def shouldDrop (s : String) : Bool :=
  if s = "" then false
  else
    let raw := pyStrip s
    if raw = "" then false
    else
      let normalized := lowerStr raw
      let lettersOnly := lettersOnlyStr normalized
      if lettersOnly = "bre" || lettersOnly = "name" || lettersOnly = "nam e" then true
      else if isBracketed raw.data then true
      else if pyEndsWith (lowerStr raw) ".wav" then true
      else if subOccurs "pronunciation" normalized.data && wordCount raw ≤ 3 then true
      else false

mutual
/-- Remove every `rref`/`audio` element subtree (`tag.decompose()` loop). -/
def removeAudioNode : Node → Option Node
  | .text s => some (.text s)
  | .elem nm a cs =>
    if nm = "rref" ∨ nm = "audio" then none else some (.elem nm a (removeAudioList cs))
def removeAudioList : List Node → List Node
  | [] => []
  | n :: ns =>
    match removeAudioNode n with
    | some x => x :: removeAudioList ns
    | none => removeAudioList ns
end

mutual
/-- Text-node dropping pass of `_strip_unwanted_segments`: drop nodes whose
string `_should_drop` matches, and whenever a drop (or a removal it caused)
leaves an element with no `get_text(" ", strip=True)` text, remove that
element too, repeatedly upward.  The boolean records whether a drop happened
inside, which is what licenses removing an emptied enclosing element (an
element that was empty to begin with is kept, as in the Python pass where the
`while` clean-up only runs after an extraction). -/
def dropNode : Node → Option Node × Bool
  | .text s => if shouldDrop s then (none, true) else (some (.text s), false)
  | .elem nm a cs =>
    let r := dropList cs
    if r.2 ∧ getTextSpace r.1 = "" then (none, true) else (some (.elem nm a r.1), r.2)
def dropList : List Node → List Node × Bool
  | [] => ([], false)
  | n :: ns =>
    let r := dropNode n
    let rs := dropList ns
    (match r.1 with
     | some x => x :: rs.1
     | none => rs.1, r.2 || rs.2)
end

/-- Model of `HTMLDefinitionLookup._strip_unwanted_segments` (lines 124-162),
on the tag tree (the Python function parses, mutates and re-serializes). -/
def stripUnwantedSegments (d : List Node) : List Node :=
  (dropList (removeAudioList d)).1

-- ---------------------------------------------------------------------------
-- The entry data model (parse.py dataclasses)
-- ---------------------------------------------------------------------------

structure Sense where
  text : String
  marker : Option String := none
  html : Option String := none

structure PartOfSpeechBlock where
  label : String
  html : String
  senses : List Sense := []

structure SectionEntry where
  text : String
  label : Option String := none
  html : Option String := none

/-- Model of `ParsedEntry`; `sections` is an insertion-ordered association
list, as a Python dict preserves insertion order.  `raw_html` holds the
serialization of the parsed markup. -/
structure ParsedEntry where
  headword : String
  pos_blocks : List PartOfSpeechBlock := []
  sections : List (String × List SectionEntry) := []
  raw_html : String := ""

/-- `entry.sections.setdefault(k, [])`. -/
def sectionsSetdefault (ss : List (String × List SectionEntry)) (k : String) :
    List (String × List SectionEntry) :=
  if (ss.lookup k).isSome then ss else ss ++ [(k, [])]

/-- `entry.sections.setdefault(k, []).append(e)`. -/
def sectionsAppend : List (String × List SectionEntry) → String → SectionEntry →
    List (String × List SectionEntry)
  | [], k, e => [(k, [e])]
  | (k2, v) :: rest, k, e =>
    if k2 = k then (k2, v ++ [e]) :: rest else (k2, v) :: sectionsAppend rest k e

-- ---------------------------------------------------------------------------
-- Concise Oxford parser (parse.py)
-- ---------------------------------------------------------------------------

/-- The classification-bullet characters `POS_BULLETS`. -/
def isPosBullet (c : Char) : Bool :=
  decide (c.toNat = 0x25a0 ∨ c.toNat = 0x25aa ∨ c.toNat = 0x2022 ∨ c.toNat = 0x25b8)

/-- Model of `_strip_pos_bullet`. -/
def stripPosBullet (s : String) : String :=
  let l := lstripL s.data
  let l2 := match l with
    | c :: rest => if isPosBullet c then rest else l
    | [] => l
  String.mk (stripBothL l2)

/-- Index of the parenthesis closing the one opening at the head (the scan of
`_strip_leading_parentheticals`). -/
def closeIdxGo : List Char → Int → Nat → Option Nat
  | [], _, _ => none
  | c :: rest, depth, idx =>
    if c = '(' then closeIdxGo rest (depth + 1) (idx + 1)
    else if c = ')' then
      if depth - 1 = 0 then some idx else closeIdxGo rest (depth - 1) (idx + 1)
    else closeIdxGo rest depth (idx + 1)

/-- Loop of `_strip_leading_parentheticals`; the fuel bounds the number of
iterations, and the input length always suffices since each iteration drops
at least one character. -/
def stripParensGo : Nat → List Char → List Char
  | 0, r => stripBothL r
  | fuel + 1, r =>
    match r with
    | '(' :: _ =>
      match closeIdxGo r 0 0 with
      | some i => stripParensGo fuel (lstripL (r.drop (i + 1)))
      | none => stripBothL r
    | _ => stripBothL r

/-- Model of `_strip_leading_parentheticals`. -/
def stripLeadingParentheticals (s : String) : String :=
  String.mk (stripParensGo s.data.length (lstripL s.data))

def isTidyPunct (c : Char) : Bool :=
  c = ',' || c = '.' || c = ';' || c = ':' || c = ')' || c = ']'

/-- First pass of `_tidy_punctuation_spacing`: drop a whitespace run directly
followed by closing punctuation (`pend` buffers the pending run, reversed). -/
def tidyOneGo : List Char → List Char → List Char
  | pend, [] => pend.reverse
  | pend, c :: rest =>
    if isWsChar c then tidyOneGo (c :: pend) rest
    else if isTidyPunct c then c :: tidyOneGo [] rest
    else pend.reverse ++ c :: tidyOneGo [] rest

/-- Second pass: drop whitespace directly after an opening parenthesis. -/
def tidyTwoGo (afterParen : Bool) : List Char → List Char
  | [] => []
  | c :: rest =>
    if afterParen ∧ isWsChar c then tidyTwoGo true rest
    else if c = '(' then c :: tidyTwoGo true rest
    else c :: tidyTwoGo false rest

/-- Model of `_tidy_punctuation_spacing`. -/
def tidyPunct (s : String) : String :=
  String.mk (stripBothL (tidyTwoGo false (tidyOneGo [] s.data)))

/-- A `c` element whose `c` attribute matches `^green$` case-insensitively. -/
def isGreenC : Node → Bool
  | .elem nm attrs _ => nm = "c" && lowerStr (attrGet attrs "c") = "green"
  | .text _ => false

/-- Model of `_match_section_header`: the normalized block text, lowercased,
equals one of the fixed section names (the `^\s*name\s*$` patterns on already
trimmed text). -/
def matchSectionHeader (n : Node) : Option String :=
  if lowerStr (nodeTagText n) = "phrases" then some "phrases"
  else if lowerStr (nodeTagText n) = "derivatives" then some "derivatives"
  else if lowerStr (nodeTagText n) = "origin" then some "origin"
  else if lowerStr (nodeTagText n) = "usage" then some "usage"
  else if lowerStr (nodeTagText n) = "grammar" then some "grammar"
  else none

/-- Model of `_looks_like_pos_header`. -/
def looksLikePosHeader (n : Node) : Bool :=
  stripPosBullet (nodeTagText n) != "" && (findInList isGreenC (childrenOf n)).isSome

/-- Model of `_inline_sense_text` (the clone of the block with the first green
`c` tag extracted). -/
def inlineSenseText (n : Node) : String :=
  let cs := (extractFromList isGreenC (childrenOf n)).1
  tidyPunct (stripLeadingParentheticals (stripPosBullet (normWs (getTextSpace cs))))

/-- Model of `_extract_pos_label`. -/
def extractPosLabel (n : Node) : String :=
  let text := stripPosBullet (nodeTagText n)
  let inline := inlineSenseText n
  let t2 :=
    if inline != "" && inline.data.isSuffixOf text.data then
      String.mk (rstripL (text.data.take (text.data.length - inline.data.length)))
    else text
  tidyPunct t2

/-- Model of `_build_inline_sense`. -/
def buildInlineSense (n : Node) : Option Sense :=
  let t := inlineSenseText n
  if t = "" then none else some ⟨t, none, some t⟩

/-- Match `SENSE_MARKER_RE` (`^(\d+)》\s*(.*)`), returning the numeral and the
remainder after the marker glyph and following whitespace. -/
def senseMarkerSplit (s : String) : Option (String × String) :=
  let ds := s.data.takeWhile isDigitChar
  if ds = [] then none
  else
    match s.data.drop ds.length with
    | c :: rest =>
      if c = '》' then some (String.mk ds, String.mk (rest.dropWhile isWsChar)) else none
    | [] => none

/-- The `re.sub(rf"^{marker}》\s*", "", html)` prefix removal. -/
def dropMarkerHtml (marker html : String) : String :=
  let pre := marker.data ++ ['》']
  if pre.isPrefixOf html.data then String.mk ((html.data.drop pre.length).dropWhile isWsChar)
  else html

/-- Model of `ConciseOxfordParser._build_sense`. -/
def buildSenseConcise (n : Node) : Option Sense :=
  let target :=
    match findInList (isElemNamed "blockquote") (childrenOf n) with
    | some inner => inner
    | none => n
  let text := nodeTagText target
  if text = "" then none
  else
    let htmlC := nodeTagHtml target
    match senseMarkerSplit text with
    | some (m, rest) => some ⟨tidyPunct (pyStrip rest), some m, some (dropMarkerHtml m htmlC)⟩
    | none => some ⟨tidyPunct text, none, some htmlC⟩

/-- Model of `ConciseOxfordParser._build_section_entry`: extract the first
bold element as the label, removing its parent when emptied. -/
def buildSectionEntry (n : Node) : SectionEntry :=
  let cs := childrenOf n
  match removeMark (isElemNamed "b") cs with
  | none => ⟨tidyPunct (normWs (getTextSpace cs)), none, some (pyStrip (decodeList cs))⟩
  | some (cs2, bnode, top) =>
    let lbl := nodeTagText bnode
    let cs3 := if top ∧ getTextConcat cs2 = "" then [] else cs2
    ⟨tidyPunct (normWs (getTextSpace cs3)), some lbl, some (pyStrip (decodeList cs3))⟩

/-- Loop state of `ConciseOxfordParser._parse_html`: the current section, the
part-of-speech blocks in reverse order (the head is `current_block`), and the
sections map. -/
structure CState where
  cursec : String
  posRev : List PartOfSpeechBlock
  sections : List (String × List SectionEntry)

/-- Append a sense to `current_block`, creating the "general" block when no
block is open (lines 199-205 of parse.py). -/
def addSenseToCurrent (st : CState) (s : Sense) : CState :=
  match st.posRev with
  | [] => { st with posRev := [⟨"general", "", [s]⟩] }
  | b :: rest => { st with posRev := { b with senses := b.senses ++ [s] } :: rest }

/-- One iteration of the `ConciseOxfordParser._parse_html` block loop
(non-blockquote children are not visited by
`find_all("blockquote", recursive=False)`). -/
def conciseStep (st : CState) (n : Node) : CState :=
  if isElemNamed "blockquote" n then
    if nodeTagText n = "" then st
    else
      match matchSectionHeader n with
      | some sec => { st with cursec := sec, sections := sectionsSetdefault st.sections sec }
      | none =>
        if st.cursec = "senses" ∧ looksLikePosHeader n = true then
          { st with
            posRev := ⟨extractPosLabel n, nodeTagHtml n,
                       match buildInlineSense n with | some s => [s] | none => []⟩ :: st.posRev
            cursec := "senses" }
        else if st.cursec ≠ "senses" then
          { st with sections := sectionsAppend st.sections st.cursec (buildSectionEntry n) }
        else
          match buildSenseConcise n with
          | some s => addSenseToCurrent st s
          | none => { st with sections := sectionsAppend st.sections "notes" (buildSectionEntry n) }
  else st

/-- Model of `ConciseOxfordParser._parse_html`.  The input is the child list
of the synthetic `<entry>` root; since that root always exists in the parsed
tree, the `ValueError` branch of the Python code is unreachable and the model
is total. -/
def parseConciseHtml (fallbackWord : String) (cs : List Node) : ParsedEntry :=
  let headword :=
    match findInList (isElemNamed "k") cs with
    | some k => getTextConcatN k
    | none => fallbackWord
  let st := cs.foldl conciseStep ⟨"senses", [], []⟩
  ⟨headword, st.posRev.reverse, st.sections, decodeList cs⟩

-- ---------------------------------------------------------------------------
-- Oxford Advanced Learner's parser (parse_oald.py)
-- ---------------------------------------------------------------------------

/-- Model of `_is_pos_label`: a `c` element whose `c` attribute lowercases to
"orange". -/
def isOrangeC : Node → Bool
  | .elem nm attrs _ => nm = "c" && lowerStr (attrGet attrs "c") = "orange"
  | .text _ => false

def rstripColons (s : String) : String :=
  String.mk ((s.data.reverse.dropWhile (fun c => c = ':')).reverse)

/-- Model of `_detect_section` over `SECTION_KEYWORDS` in insertion order. -/
def detectSection (tl : String) : Option (String × String) :=
  if pyStartsWith tl "word origin" then some ("word origin", "origin")
  else if pyStartsWith tl "verb forms" then some ("verb forms", "verb_forms")
  else if pyStartsWith tl "thesaurus" then some ("thesaurus", "thesaurus")
  else if pyStartsWith tl "extra examples" then some ("extra examples", "extra_examples")
  else if pyStartsWith tl "more about" then some ("more about", "more_about")
  else none

mutual
/-- Model of BeautifulSoup `Tag.string`: follow unique children down to a
text node. -/
def nodeString : Node → Option String
  | .text s => some s
  | .elem _ _ cs => nodeStringList cs
def nodeStringList : List Node → Option String
  | [c] => nodeString c
  | _ => none
end

/-- Full match of `MARKER_RE` (`^(\d+)\.?$`). -/
def isMarkerStringL (l : List Char) : Bool :=
  let ds := l.takeWhile isDigitChar
  ds ≠ [] && (l.drop ds.length = [] || l.drop ds.length = ['.'])

/-- A `b` element whose `.string` matches `MARKER_RE`
(`find("b", string=MARKER_RE)`). -/
def isMarkerB (n : Node) : Bool :=
  isElemNamed "b" n &&
    (match nodeString n with
     | some s => isMarkerStringL s.data
     | none => false)

/-- Model of `OxfordAdvancedLearnersParser._looks_like_sense`. -/
def looksLikeSenseO (n : Node) : Bool := (findInList isMarkerB (childrenOf n)).isSome

/-- Model of `OxfordAdvancedLearnersParser._build_sense`. -/
def buildSenseOald (n : Node) : Sense :=
  let cs := childrenOf n
  match removeMark isMarkerB cs with
  | none => ⟨normWs (getTextSpace cs), none, some (pyStrip (decodeList cs))⟩
  | some (cs2, bnode, top) =>
    let mt := getTextConcatN bnode
    let r := (mt.data.reverse.dropWhile (fun c => c = '.')).reverse
    let marker := if r ≠ [] ∧ r.all isDigitChar then some (String.mk r) else none
    let cs3 := if top ∧ getTextConcat cs2 = "" then [] else cs2
    ⟨normWs (getTextSpace cs3), marker, some (pyStrip (decodeList cs3))⟩

/-- Loop state of `OxfordAdvancedLearnersParser._parse_entry`: the headnote
fragments, the before-first-sense flag, the blocks in reverse order (head =
`current_block`), whether `last_sense` is live (it is then the last sense of
the head block), and the pending/active section keys. -/
structure OState where
  frags : List Node
  before : Bool
  posRev : List PartOfSpeechBlock
  lastSense : Bool
  pending : Option String
  active : Option String
  sections : List (String × List SectionEntry)

/-- Model of `_flush_headnote`. -/
def flushHead (st : OState) : OState :=
  if st.frags.isEmpty then st
  else if pyStrip (decodeList st.frags) = "" then { st with frags := [] }
  else
    { st with
      frags := []
      sections := sectionsAppend st.sections "headnote"
        ⟨normWs (getTextSpace st.frags), none, some (pyStrip (decodeList st.frags))⟩ }

/-- Model of `_append_section`. -/
def appendSectionO (st : OState) (key : String) (n : Node) : OState :=
  let h := nodeTagHtml n
  if h = "" then st
  else { st with sections := sectionsAppend st.sections key ⟨nodeTagText n, none, some h⟩ }

/-- Model of `_append_to_sense` applied to the live `last_sense`. -/
def appendToLastSense (st : OState) (n : Node) : OState :=
  let h := nodeTagHtml n
  if h = "" then st
  else
    match st.posRev with
    | [] => st
    | b :: rest =>
      match b.senses.getLast? with
      | none => st
      | some ls =>
        let ls2 := { ls with
          html := some ((ls.html.getD "") ++ "<div class=\"sense-note\">" ++ h ++ "</div>") }
        { st with posRev := { b with senses := b.senses.dropLast ++ [ls2] } :: rest }

/-- The sense branch of the blockquote case (lines 163-170 of parse_oald.py). -/
def oaldSenseBranch (st : OState) (n : Node) : OState :=
  let st2 := { st with active := none }
  match st2.posRev with
  | [] => { st2 with posRev := [⟨"entry", "", [buildSenseOald n]⟩], lastSense := true }
  | b :: rest =>
    { st2 with
      posRev := { b with senses := b.senses ++ [buildSenseOald n] } :: rest
      lastSense := true }

/-- The blockquote case of the `_parse_entry` child loop (lines 134-176 of
parse_oald.py), after the headnote has been flushed. -/
def oaldBlockquoteStep (st1 : OState) (child : Node) : OState :=
  let tl := lowerStr (nodeTagText child)
  match detectSection tl with
  | some (kw, sec) =>
    if rstripColons tl = kw then { st1 with active := some sec, pending := some sec }
    else { appendSectionO { st1 with active := some sec } sec child with pending := none }
  | none =>
    match st1.pending with
    | some p => { appendSectionO st1 p child with pending := none }
    | none =>
      match st1.active with
      | some a =>
        if a = "thesaurus" ∨ looksLikeSenseO child = false then appendSectionO st1 a child
        else oaldSenseBranch st1 child
      | none =>
        if looksLikeSenseO child = true then oaldSenseBranch st1 child
        else if st1.lastSense then appendToLastSense st1 child
        else appendSectionO st1 "notes" child

/-- One iteration of the `OxfordAdvancedLearnersParser._parse_entry` child
loop. -/
def oaldStep (st : OState) (child : Node) : OState :=
  match child with
  | .text s =>
    if st.before ∧ pyStrip s ≠ "" then { st with frags := st.frags ++ [.text s] } else st
  | .elem nm attrs cs =>
    if nm = "k" then st
    else if nm = "c" ∧ isOrangeC (.elem nm attrs cs) = true then
      let st1 := if st.before then { flushHead st with before := false } else st
      { st1 with
        active := none
        posRev := ⟨normWs (getTextSpace cs), decodeNode (.elem nm attrs cs), []⟩ :: st1.posRev
        lastSense := false }
    else if nm = "blockquote" then
      oaldBlockquoteStep (if st.before then { flushHead st with before := false } else st)
        (.elem nm attrs cs)
    else
      if st.before then { st with frags := st.frags ++ [child] }
      else { appendSectionO st "notes" child with active := none }

/-- Model of `OxfordAdvancedLearnersParser._parse_entry` on the child list of
the synthetic root (total for the same reason as `parseConciseHtml`).  The
final line prunes part-of-speech blocks without senses. -/
def parseOald (fallbackWord : String) (cs : List Node) : ParsedEntry :=
  let headword :=
    match findInList (isElemNamed "k") cs with
    | some k => getTextConcatN k
    | none => fallbackWord
  let st := cs.foldl oaldStep ⟨[], true, [], false, none, none, []⟩
  let st2 := flushHead st
  ⟨headword, (st2.posRev.reverse).filter (fun b => !b.senses.isEmpty), st2.sections,
   decodeList cs⟩

/-- The child nodes the OALD parser accumulates as headnote fragments: stray
text and miscellaneous tags up to the first part-of-speech label or first
blockquote (`k` elements are skipped throughout). -/
def oaldCollect : List Node → List Node
  | [] => []
  | .text s :: rest => if pyStrip s = "" then oaldCollect rest else .text s :: oaldCollect rest
  | .elem nm attrs cs :: rest =>
    if nm = "k" then oaldCollect rest
    else if (nm = "c" ∧ isOrangeC (.elem nm attrs cs) = true) ∨ nm = "blockquote" then []
    else .elem nm attrs cs :: oaldCollect rest

/-- The headnote section the collected fragments produce. -/
def headnoteSec (frag : List Node) : Option (List SectionEntry) :=
  if pyStrip (decodeList frag) = "" then none
  else some [⟨normWs (getTextSpace frag), none, some (pyStrip (decodeList frag))⟩]

-- ---------------------------------------------------------------------------
-- Entry renderer (render_entry_html in parse.py)
-- ---------------------------------------------------------------------------

def upperChar (c : Char) : Char :=
  match c with
  | 'a' => 'A' | 'b' => 'B' | 'c' => 'C' | 'd' => 'D' | 'e' => 'E' | 'f' => 'F'
  | 'g' => 'G' | 'h' => 'H' | 'i' => 'I' | 'j' => 'J' | 'k' => 'K' | 'l' => 'L'
  | 'm' => 'M' | 'n' => 'N' | 'o' => 'O' | 'p' => 'P' | 'q' => 'Q' | 'r' => 'R'
  | 's' => 'S' | 't' => 'T' | 'u' => 'U' | 'v' => 'V' | 'w' => 'W' | 'x' => 'X'
  | 'y' => 'Y' | 'z' => 'Z'
  | c => c

/-- Model of `html.escape` with quoting, used for text inserted into HTML. -/
def escHtmlChar (c : Char) : String :=
  if c = '&' then "&amp;" else if c = '<' then "&lt;" else if c = '>' then "&gt;"
  else if c = '"' then "&quot;" else if c = apostropheChar then "&#x27;"
  else String.singleton c

def escapeHtml (s : String) : String := String.join (s.data.map escHtmlChar)

/-- Model of Python `str.title()` on the letters-and-spaces keys used here. -/
def titleCaseGo (startWord : Bool) : List Char → List Char
  | [] => []
  | c :: rest =>
    if isAlphaChar c then
      (if startWord then upperChar c else lowerChar c) :: titleCaseGo false rest
    else c :: titleCaseGo true rest

/-- Model of `_get_display_name`. -/
def getDisplayName (k : String) : String :=
  if k = "headnote" then "Headnote" else if k = "phrases" then "Phrases"
  else if k = "derivatives" then "Derivatives" else if k = "origin" then "Origin"
  else if k = "usage" then "Usage" else if k = "grammar" then "Grammar"
  else if k = "verb_forms" then "Verb forms" else if k = "thesaurus" then "Thesaurus"
  else if k = "extra_examples" then "Extra examples"
  else if k = "more_about" then "More about" else if k = "notes" then "Notes"
  else String.mk (titleCaseGo true (k.data.map (fun c => if c = '_' then ' ' else c)))

def classOkChar (c : Char) : Bool := isDigitChar c || isAlphaChar c || c = '_' || c = '-'

def classSubGo (prevBad : Bool) : List Char → List Char
  | [] => []
  | c :: rest =>
    if classOkChar c then c :: classSubGo false rest
    else if prevBad then classSubGo true rest
    else '-' :: classSubGo true rest

/-- Model of `_section_class_name`. -/
def sectionClassName (k : String) : String :=
  let l := classSubGo false k.data
  let l2 := ((l.dropWhile (fun c => c = '-')).reverse.dropWhile (fun c => c = '-')).reverse
  let s := lowerStr (String.mk l2)
  if s = "" then "section" else s

/-- Model of `_html_or_text` (an absent or empty html falls back to the
escaped text). -/
def htmlOrText (h : Option String) (t : String) : String :=
  match h with
  | some s => if s = "" then escapeHtml t else s
  | none => escapeHtml t

/-- Model of `str(x)` on an optional string (Python renders `None` as the
string "None"). -/
def pyStrOpt (o : Option String) : String :=
  match o with
  | none => "None"
  | some s => s

def stripDotColon (s : String) : String :=
  let bad := fun (c : Char) => c = '.' || c = ':'
  String.mk (((s.data.dropWhile bad).reverse.dropWhile bad).reverse)

/-- The per-item label markup of `_append_section_block`. -/
def sectionLabelHtml (lbl : Option String) : String :=
  let label := match lbl with | none => "" | some lr => pyStrip lr
  let label2 := if label ≠ "" ∧ stripDotColon (lowerStr label) = "none" then "" else label
  if label2 = "" then ""
  else "<strong class=\"section-label\">" ++ escapeHtml label2 ++ "</strong> "

/-- Model of `_append_section_block` (the list of lines it appends). -/
def sectionBlockParts (subTag k : String) (entries : List SectionEntry) : List String :=
  if entries.isEmpty then []
  else
    ["<section class=\"entry-section entry-section-" ++ sectionClassName k ++ "\">",
     "<" ++ subTag ++ ">" ++ escapeHtml (getDisplayName k) ++ "</" ++ subTag ++ ">",
     "<ul>"]
    ++ entries.map (fun e => "<li>" ++ sectionLabelHtml e.label ++ htmlOrText e.html e.text ++ "</li>")
    ++ ["</ul></section>"]

/-- The lines one part-of-speech block contributes to the rendering. -/
def posBlockParts (subTag : String) (b : PartOfSpeechBlock) : List String :=
  let label := escapeHtml (pyStrip b.label)
  ["<section class=\"pos-block\">"]
  ++ (if label = "" then []
      else ["<" ++ subTag ++ " class=\"pos-label\">" ++ label ++ "</" ++ subTag ++ ">"])
  ++ (if !b.senses.isEmpty then
        ["<ol class=\"sense-list\">"]
        ++ b.senses.map (fun s =>
             let marker := pyStrip (pyStrOpt s.marker)
             let markerHtml :=
               if marker = "" then ""
               else "<span class=\"sense-marker\">" ++ escapeHtml marker ++ ".</span> "
             "<li>" ++ markerHtml ++ htmlOrText s.html s.text ++ "</li>")
        ++ ["</ol>"]
      else if b.html = "" then [] else ["<p>" ++ b.html ++ "</p>"])
  ++ ["</section>"]

/-- Model of `render_entry_html`'s `parts` list; the rendered string is these
lines joined with newlines. -/
def renderParts (entry : ParsedEntry) (headingLevel : Nat) : List String :=
  let hl := min 6 (max 1 headingLevel)
  let headword := escapeHtml (let s := pyStrip entry.headword; if s = "" then "Entry" else s)
  let hTag := "h" ++ toString hl
  let subTag := "h" ++ toString (min 6 (hl + 1))
  ["<article class=\"concise-oxford-entry\">",
   "<" ++ hTag ++ " class=\"entry-headword\">" ++ headword ++ "</" ++ hTag ++ ">"]
  ++ (match entry.sections.lookup "headnote" with
      | some es => sectionBlockParts subTag "headnote" es
      | none => [])
  ++ (entry.pos_blocks.map (posBlockParts subTag)).flatten
  ++ ((entry.sections.filter (fun p => p.1 != "headnote")).map
        (fun p => sectionBlockParts subTag p.1 p.2)).flatten
  ++ ["</article>"]

/-- Model of `render_entry_html`. -/
def renderEntryHtml (entry : ParsedEntry) (headingLevel : Nat) : String :=
  String.intercalate "\n" (renderParts entry headingLevel)

-- ---------------------------------------------------------------------------
-- Multi-source resolver (dictionary_lookup.py)
-- ---------------------------------------------------------------------------

/-- Model of `HTMLDefinitionLookup._lookup_with_cross_reference` (lines
98-120).  A source is a function from a word to the tag tree of the HTML it
yields (the empty list standing for the empty string).  The Python recursion
carries no fuel; here `fuel` bounds the recursion depth, `none` marking
exhaustion, so that termination claims become statements that enough fuel
always exists. -/
def lookupCRFuel (provider : String → List Node) :
    Nat → String → List String → Option (List Node)
  | 0, _, _ => none
  | fuel + 1, word, seen =>
    let key := pyStrip word
    if key = "" then some []
    else
      let lowered := lowerStr key
      if lowered ∈ seen then some []
      else
        let html := provider key
        if isValidDefinition html then some html
        else
          match extractCrossReference html with
          | some target =>
            if lowerStr target ∈ lowered :: seen then some []
            else lookupCRFuel provider fuel target (lowered :: seen)
          | none => some []

/-- Model of `HTMLDefinitionLookup.get_def` (lines 32-48) over three pure
sources; the cache is an association list keyed by the lowercased trimmed
word, and a fuel-exhausted cross-reference chain contributes the empty
result. -/
def getDef (oald concise fb : String → List Node) (fuel : Nat)
    (cache : List (String × String)) (word : String) :
    String × List (String × String) :=
  let key := pyStrip word
  if key = "" then ("", cache)
  else
    let ck := lowerStr key
    match cache.lookup ck with
    | some v => (v, cache)
    | none =>
      let r1 := (lookupCRFuel oald fuel key []).getD []
      let r2 := (lookupCRFuel concise fuel key []).getD []
      let r3 := (lookupCRFuel fb fuel key []).getD []
      let chosen := if decodeList r1 ≠ "" then r1 else if decodeList r2 ≠ "" then r2 else r3
      let v := decodeList (stripUnwantedSegments chosen)
      (v, (ck, v) :: cache)

/-- The exceptions relevant to `get_def`: `KeyError` (word absent from a
source) and `ValueError` (the parsers' `MalformedMarkup` signal). -/
inductive PyErr where
  | keyError
  | valueError
deriving DecidableEq

/-- Model of `HTMLDefinitionLookup._lookup_oald` / `_lookup_concise` (lines
56-74): only `KeyError` is caught and turned into the empty result; any other
exception of `get_entry` propagates. -/
def lookupViaParser (render : ParsedEntry → List Node)
    (getEntry : String → Except PyErr ParsedEntry) (w : String) :
    Except PyErr (List Node) :=
  match getEntry w with
  | .error .keyError => .ok []
  | .error .valueError => .error .valueError
  | .ok e => .ok (render e)

/-- Exception-aware variant of `lookupCRFuel`: `_lookup_with_cross_reference`
has no handler, so a source exception propagates out of it. -/
def lookupCRFuelE (provider : String → Except PyErr (List Node)) :
    Nat → String → List String → Option (Except PyErr (List Node))
  | 0, _, _ => none
  | fuel + 1, word, seen =>
    let key := pyStrip word
    if key = "" then some (.ok [])
    else
      let lowered := lowerStr key
      if lowered ∈ seen then some (.ok [])
      else
        match provider key with
        | .error e => some (.error e)
        | .ok html =>
          if isValidDefinition html then some (.ok html)
          else
            match extractCrossReference html with
            | some target =>
              if lowerStr target ∈ lowered :: seen then some (.ok [])
              else lookupCRFuelE provider fuel target (lowered :: seen)
            | none => some (.ok [])

def finishE (ck : String) (cache : List (String × String)) (r : List Node) :
    Option (Except PyErr (String × List (String × String))) :=
  let v := decodeList (stripUnwantedSegments r)
  some (.ok (v, (ck, v) :: cache))

/-- Exception-aware model of `get_def`: `get_def` itself has no handler
either, so an exception from a source lookup propagates to its caller
(`.error`), short-circuiting the remaining sources.  The fallback source
(`StarDictWrapper.get_def`) returns a string and is modelled as pure. -/
def getDefE (s1 s2 : String → Except PyErr (List Node)) (s3 : String → List Node)
    (fuel : Nat) (cache : List (String × String)) (word : String) :
    Option (Except PyErr (String × List (String × String))) :=
  let key := pyStrip word
  if key = "" then some (.ok ("", cache))
  else
    let ck := lowerStr key
    match cache.lookup ck with
    | some v => some (.ok (v, cache))
    | none =>
      match lookupCRFuelE s1 fuel key [] with
      | none => none
      | some (.error e) => some (.error e)
      | some (.ok r1) =>
        if decodeList r1 ≠ "" then finishE ck cache r1
        else
          match lookupCRFuelE s2 fuel key [] with
          | none => none
          | some (.error e) => some (.error e)
          | some (.ok r2) =>
            if decodeList r2 ≠ "" then finishE ck cache r2
            else
              match lookupCRFuelE (fun u => .ok (s3 u)) fuel key [] with
              | none => none
              | some (.error e) => some (.error e)
              | some (.ok r3) => finishE ck cache r3

-- ---------------------------------------------------------------------------
-- Character-level helper lemmas
-- ---------------------------------------------------------------------------

theorem char_toNat_ofNat (n : Nat) (h1 : 97 ≤ n) (h2 : n ≤ 122) : (Char.ofNat n).toNat = n := by
  unfold Char.ofNat
  split
  · unfold Char.ofNatAux Char.toNat
    simp [UInt32.toNat, BitVec.toNat_ofNatLt]
  · rename_i hv
    exact absurd (Or.inl (by omega : n < 0xd800)) hv

theorem isWs_lowerChar (c : Char) : isWsChar (lowerChar c) = isWsChar c := by
  unfold lowerChar
  by_cases h : 65 ≤ c.toNat ∧ c.toNat ≤ 90
  · rw [if_pos h]
    have ht := char_toNat_ofNat (c.toNat + 32) (by omega) (by omega)
    unfold isWsChar
    apply decide_eq_decide.mpr
    rw [ht]
    omega
  · rw [if_neg h]

theorem lowerChar_idem (c : Char) : lowerChar (lowerChar c) = lowerChar c := by
  unfold lowerChar
  by_cases h : 65 ≤ c.toNat ∧ c.toNat ≤ 90
  · rw [if_pos h]
    have ht := char_toNat_ofNat (c.toNat + 32) (by omega) (by omega)
    rw [if_neg (by rw [ht]; omega)]
  · rw [if_neg h, if_neg h]

theorem isLowerAlpha_lowerChar_of_ws (c : Char) (h : isWsChar c = true) :
    isLowerAlphaChar (lowerChar c) = false := by
  unfold isWsChar at h
  simp only [decide_eq_true_eq] at h
  unfold lowerChar
  rw [if_neg (by omega)]
  unfold isLowerAlphaChar
  simp only [decide_eq_false_iff_not]
  omega

theorem dropWhile_isWs_map_lower (l : List Char) :
    (l.map lowerChar).dropWhile isWsChar = (l.dropWhile isWsChar).map lowerChar := by
  have h : (isWsChar ∘ lowerChar) = isWsChar := funext isWs_lowerChar
  rw [List.dropWhile_map, h]

theorem lower_strip_comm (s : String) : lowerStr (pyStrip s) = pyStrip (lowerStr s) := by
  unfold lowerStr pyStrip stripBothL lstripL rstripL
  congr 1
  simp only [← List.map_reverse, dropWhile_isWs_map_lower]

theorem lowerStr_eq_empty (s : String) (h : lowerStr s = "") : s = "" := by
  unfold lowerStr at h
  cases s with
  | mk l =>
    have h2 : l.map lowerChar = [] := by
      have := congrArg String.data h
      simpa using this
    have h3 : l = [] := by simpa using h2
    simp [h3]

theorem dropWhile_eq_self_of_not (l : List Char) (h : ∀ x ∈ l, isWsChar x = false) :
    l.dropWhile isWsChar = l := by
  cases l with
  | nil => rfl
  | cons c rest => simp [List.dropWhile, h c (by simp)]

theorem stripBothL_eq_self (l : List Char) (h : ∀ x ∈ l, isWsChar x = false) :
    stripBothL l = l := by
  unfold stripBothL lstripL rstripL
  rw [dropWhile_eq_self_of_not l.reverse (by intro x hx; exact h x (List.mem_reverse.mp hx)),
      List.reverse_reverse, dropWhile_eq_self_of_not l h]

theorem isTargetChar_not_ws (c : Char) (h : isTargetChar c = true) : isWsChar c = false := by
  unfold isTargetChar isAlphaChar isUpperAlphaChar isLowerAlphaChar apostropheChar at h
  unfold isWsChar
  simp only [Bool.or_eq_true, decide_eq_true_eq] at h
  simp only [decide_eq_false_iff_not]
  casesm* _ ∨ _ <;> first | omega | (subst_vars; decide)

theorem isAlphaChar_target (c : Char) (h : isAlphaChar c = true) : isTargetChar c = true := by
  unfold isTargetChar
  simp [h]

-- ---------------------------------------------------------------------------
-- Cross-reference target shape
-- ---------------------------------------------------------------------------

theorem grabTarget_shape (l t : List Char) (h : grabTarget l = some t) :
    ∀ x ∈ t, isTargetChar x = true := by
  unfold grabTarget at h
  by_cases h1 : (l.takeWhile isWsChar) = []
  · simp [h1] at h
  · rw [if_neg h1] at h
    cases hw : l.dropWhile isWsChar with
    | nil => simp [hw] at h
    | cons d tl =>
      simp only [hw] at h
      by_cases hd : isAlphaChar d = true
      · rw [if_pos hd] at h
        obtain rfl := Option.some.inj h
        intro x hx
        rcases List.mem_cons.mp hx with rfl | hx2
        · exact isAlphaChar_target _ hd
        · exact List.mem_takeWhile_imp hx2
      · simp [hd] at h

theorem arrowSearch_shape (l t : List Char) (h : arrowSearch l = some t) :
    ∀ x ∈ t, isTargetChar x = true := by
  induction l with
  | nil => simp [arrowSearch] at h
  | cons c rest ih =>
    rw [arrowSearch] at h
    by_cases hc : c = '→'
    · simp only [hc, if_true, if_pos rfl] at h
      cases hw : rest.dropWhile isWsChar with
      | nil => rw [hw] at h; exact ih h
      | cons d tl =>
        rw [hw] at h
        by_cases hd : isAlphaChar d = true
        · simp only [hd, if_true, if_pos rfl, Option.some.injEq] at h
          subst h
          intro x hx
          rcases List.mem_cons.mp hx with rfl | hx2
          · exact isAlphaChar_target _ hd
          · exact List.mem_takeWhile_imp hx2
        · simp only [hd, if_false] at h
          exact ih (by simpa [hd] using h)
    · rw [if_neg hc] at h
      exact ih h

theorem seeAlsoTry_shape (l t : List Char) (h : seeAlsoTry l = some t) :
    ∀ x ∈ t, isTargetChar x = true := by
  unfold seeAlsoTry at h
  split_ifs at h
  all_goals exact grabTarget_shape _ _ h

theorem seeMatch_shape (l t : List Char) (h : seeMatch l = some t) :
    ∀ x ∈ t, isTargetChar x = true := by
  unfold seeMatch at h
  by_cases h1 : ("see".data).isPrefixOf (l.map lowerChar)
  · rw [if_pos h1] at h
    cases hs : seeAlsoTry (l.drop 3) with
    | some u =>
      simp only [hs] at h
      obtain rfl := Option.some.inj h
      exact seeAlsoTry_shape _ _ hs
    | none =>
      simp only [hs] at h
      exact grabTarget_shape _ _ h
  · simp [h1] at h

theorem extract_target_strip_self (d : List Node) (t : String)
    (h : extractCrossReference d = some t) : pyStrip t = t := by
  unfold extractCrossReference at h
  by_cases h1 : decodeList d = ""
  · simp [h1] at h
  · rw [if_neg h1] at h
    by_cases h2 : getTextSpace d = ""
    · simp [h2] at h
    · rw [if_neg h2] at h
      cases ha : arrowSearch (getTextSpace d).data with
      | some u =>
        simp only [ha] at h
        obtain rfl := Option.some.inj h
        have hall := arrowSearch_shape _ _ ha
        unfold pyStrip
        rw [show (String.mk u).data = u from rfl,
            stripBothL_eq_self u (fun x hx => isTargetChar_not_ws x (hall x hx))]
      | none =>
        simp only [ha] at h
        cases hs : seeMatch (pyStrip (getTextSpace d)).data with
        | some u =>
          simp only [hs] at h
          obtain rfl := Option.some.inj h
          have hall := seeMatch_shape _ _ hs
          unfold pyStrip
          rw [show (String.mk u).data = u from rfl,
              stripBothL_eq_self u (fun x hx => isTargetChar_not_ws x (hall x hx))]
        | none => simp [hs] at h

-- ---------------------------------------------------------------------------
-- Termination of the cross-reference chase (helpers)
-- ---------------------------------------------------------------------------

theorem filter_length_mono {α : Type} (p q : α → Bool) (l : List α)
    (h : ∀ x, q x = true → p x = true) :
    (l.filter q).length ≤ (l.filter p).length := by
  induction l with
  | nil => simp
  | cons b t ih =>
    by_cases hq : q b = true
    · simp [List.filter, hq, h b hq]; omega
    · have hq2 : q b = false := by simpa using hq
      by_cases hp : p b = true
      · simp [List.filter, hq2, hp]; omega
      · have hp2 : p b = false := by simpa using hp
        simpa [List.filter, hq2, hp2] using ih

theorem filt_lt (seen : List String) (a : String) (l : List String)
    (hal : a ∈ l) (has : a ∉ seen) :
    (l.filter (fun x => decide (x ∉ a :: seen))).length <
      (l.filter (fun x => decide (x ∉ seen))).length := by
  induction l with
  | nil => simp at hal
  | cons b t ih =>
    by_cases hb : b = a
    · subst hb
      have q1 : (fun x => decide (x ∉ b :: seen)) b = false := by simp
      have p1 : (fun x => decide (x ∉ seen)) b = true := by simpa using has
      simp only [List.filter, q1, p1]
      have := filter_length_mono (fun x => decide (x ∉ seen)) (fun x => decide (x ∉ b :: seen)) t
        (by intro x hx; simp only [decide_eq_true_eq] at hx ⊢; intro hmem; exact hx (List.mem_cons_of_mem _ hmem))
      simp only [List.length_cons]
      omega
    · have hat : a ∈ t := by
        rcases List.mem_cons.mp hal with h1 | h1
        · exact absurd h1.symm hb
        · exact h1
      have heq : (decide (b ∉ a :: seen)) = (decide (b ∉ seen)) := by
        apply decide_eq_decide.mpr
        constructor
        · intro hx hmem; exact hx (List.mem_cons_of_mem _ hmem)
        · intro hx hmem
          rcases List.mem_cons.mp hmem with h1 | h1
          · exact hb h1
          · exact hx h1
      by_cases hbv : (decide (b ∉ seen)) = true
      · simp only [List.filter, heq, hbv, List.length_cons]
        have := ih hat
        omega
      · have hbv2 : (decide (b ∉ seen)) = false := by simpa using hbv
        simp only [List.filter, heq, hbv2]
        exact ih hat

theorem filt_eq (seen : List String) (a : String) (l : List String) (hal : a ∉ l) :
    l.filter (fun x => decide (x ∉ a :: seen)) = l.filter (fun x => decide (x ∉ seen)) := by
  apply List.filter_congr
  intro x hx
  have hxa : x ≠ a := fun he => hal (he ▸ hx)
  apply decide_eq_decide.mpr
  constructor
  · intro h1 hmem; exact h1 (List.mem_cons_of_mem _ hmem)
  · intro h1 hmem
    rcases List.mem_cons.mp hmem with h2 | h2
    · exact hxa h2
    · exact h1 h2

theorem lookupCR_some_aux (provider : String → List Node) (L : List String)
    (hL : ∀ w t, extractCrossReference (provider w) = some t → lowerStr t ∈ L) :
    ∀ fuel word seen,
      (if lowerStr (pyStrip word) ∈ L
       then (L.dedup.filter (fun x => decide (x ∉ seen))).length + 1
       else (L.dedup.filter (fun x => decide (x ∉ seen))).length + 2) ≤ fuel →
      (lookupCRFuel provider fuel word seen).isSome = true := by
  intro fuel
  induction fuel with
  | zero =>
    intro word seen hf
    exfalso
    split at hf <;> omega
  | succ n ih =>
    intro word seen hf
    rw [lookupCRFuel]
    by_cases hk : pyStrip word = ""
    · simp [hk]
    · by_cases hm : lowerStr (pyStrip word) ∈ seen
      · simp [hk, hm]
      · by_cases hv : isValidDefinition (provider (pyStrip word)) = true
        · simp [hk, hm, hv]
        · have hv2 : isValidDefinition (provider (pyStrip word)) = false := by simpa using hv
          cases hx : extractCrossReference (provider (pyStrip word)) with
          | none => simp [hk, hm, hv2, hx]
          | some tgt =>
            by_cases ht : lowerStr tgt ∈ lowerStr (pyStrip word) :: seen
            · simp [hk, hm, hv2, hx, ht]
            · simp only [hk, hm, hv2, hx, ht, if_false, ite_false, if_neg, Bool.false_eq_true]
              apply ih
              have hstrip : pyStrip tgt = tgt := extract_target_strip_self _ _ hx
              have hmemL : lowerStr tgt ∈ L := hL _ _ hx
              rw [hstrip, if_pos hmemL]
              by_cases hw : lowerStr (pyStrip word) ∈ L
              · rw [if_pos hw] at hf
                have hlt := filt_lt seen (lowerStr (pyStrip word)) L.dedup
                  (List.mem_dedup.mpr hw) hm
                omega
              · rw [if_neg hw] at hf
                have heq := filt_eq seen (lowerStr (pyStrip word)) L.dedup
                  (fun hc => hw (List.mem_dedup.mp hc))
                rw [heq]
                omega

-- ---------------------------------------------------------------------------
-- Exception flow through the resolver (helpers)
-- ---------------------------------------------------------------------------

theorem lookupViaParser_ok (render : ParsedEntry → List Node)
    (g : String → Except PyErr ParsedEntry) (hg : ∀ u, g u ≠ .error .valueError) (w : String) :
    ∃ d, lookupViaParser render g w = .ok d := by
  unfold lookupViaParser
  cases hgw : g w with
  | ok e => exact ⟨render e, rfl⟩
  | error pe =>
    cases pe with
    | keyError => exact ⟨[], rfl⟩
    | valueError => exact absurd hgw (hg w)

theorem lookupCRFuelE_ok (provider : String → Except PyErr (List Node))
    (hp : ∀ u, ∃ d, provider u = .ok d) :
    ∀ fuel word seen res, lookupCRFuelE provider fuel word seen = some res →
      ∃ d, res = .ok d := by
  intro fuel
  induction fuel with
  | zero => intro word seen res h; simp [lookupCRFuelE] at h
  | succ n ih =>
    intro word seen res h
    rw [lookupCRFuelE] at h
    by_cases hk : pyStrip word = ""
    · simp [hk] at h
      exact ⟨[], h.symm⟩
    · by_cases hm : lowerStr (pyStrip word) ∈ seen
      · simp [hk, hm] at h
        exact ⟨[], h.symm⟩
      · obtain ⟨d, hd⟩ := hp (pyStrip word)
        by_cases hv : isValidDefinition d = true
        · simp [hk, hm, hd, hv] at h
          exact ⟨d, h.symm⟩
        · have hv2 : isValidDefinition d = false := by simpa using hv
          cases hx : extractCrossReference d with
          | none =>
            simp [hk, hm, hd, hv2, hx] at h
            exact ⟨[], h.symm⟩
          | some tgt =>
            by_cases ht : lowerStr tgt ∈ lowerStr (pyStrip word) :: seen
            · simp [hk, hm, hd, hv2, hx, ht] at h
              exact ⟨[], h.symm⟩
            · simp only [hk, hm, hd, hv2, hx, ht, if_false, ite_false, Bool.false_eq_true] at h
              exact ih _ _ _ (by simpa [hk, hm, hd, hv2, hx, ht] using h)

theorem getDefE_ok (s1 s2 : String → Except PyErr (List Node)) (s3 : String → List Node)
    (h1 : ∀ u, ∃ d, s1 u = .ok d) (h2 : ∀ u, ∃ d, s2 u = .ok d)
    (fuel : Nat) (cache : List (String × String)) (word : String)
    (r : Except PyErr (String × List (String × String)))
    (hr : getDefE s1 s2 s3 fuel cache word = some r) :
    ∃ v, r = .ok v := by
  unfold getDefE at hr
  by_cases hk : pyStrip word = ""
  · simp [hk] at hr
    exact ⟨_, hr.symm⟩
  · cases hc : List.lookup (lowerStr (pyStrip word)) cache with
    | some v =>
      simp [hk, hc] at hr
      exact ⟨_, hr.symm⟩
    | none =>
      cases hcr1 : lookupCRFuelE s1 fuel (pyStrip word) [] with
      | none => simp [hk, hc, hcr1] at hr
      | some res1 =>
        obtain ⟨d1, rfl⟩ := lookupCRFuelE_ok s1 h1 fuel (pyStrip word) [] res1 hcr1
        by_cases hd1 : decodeList d1 = ""
        · cases hcr2 : lookupCRFuelE s2 fuel (pyStrip word) [] with
          | none => simp [hk, hc, hcr1, hd1, hcr2] at hr
          | some res2 =>
            obtain ⟨d2, rfl⟩ := lookupCRFuelE_ok s2 h2 fuel (pyStrip word) [] res2 hcr2
            by_cases hd2 : decodeList d2 = ""
            · cases hcr3 : lookupCRFuelE (fun u => .ok (s3 u)) fuel (pyStrip word) [] with
              | none => simp [hk, hc, hcr1, hd1, hcr2, hd2, hcr3] at hr
              | some res3 =>
                obtain ⟨d3, rfl⟩ :=
                  lookupCRFuelE_ok (fun u => .ok (s3 u)) (fun u => ⟨s3 u, rfl⟩)
                    fuel (pyStrip word) [] res3 hcr3
                simp [hk, hc, hcr1, hd1, hcr2, hd2, hcr3, finishE] at hr
                exact ⟨_, hr.symm⟩
            · simp [hk, hc, hcr1, hd1, hcr2, hd2, finishE] at hr
              exact ⟨_, hr.symm⟩
        · simp [hk, hc, hcr1, hd1, finishE] at hr
          exact ⟨_, hr.symm⟩

-- ---------------------------------------------------------------------------
-- Section-dictionary lemmas
-- ---------------------------------------------------------------------------

theorem lookup_append_single_ne {β : Type} (ss : List (String × β)) (k' k : String) (b : β)
    (h : k' ≠ k) : (ss ++ [(k', b)]).lookup k = ss.lookup k := by
  induction ss with
  | nil => simp [List.lookup, beq_eq_false_iff_ne.mpr (Ne.symm h)]
  | cons p rest ih =>
    obtain ⟨k2, v⟩ := p
    by_cases h3 : k == k2
    · simp [List.lookup, h3]
    · have h4 : (k == k2) = false := by simpa using h3
      simp [List.lookup, h4, ih]

theorem sectionsAppend_lookup_ne (ss : List (String × List SectionEntry)) (k' k : String)
    (e : SectionEntry) (h : k' ≠ k) :
    (sectionsAppend ss k' e).lookup k = ss.lookup k := by
  induction ss with
  | nil =>
    simp [sectionsAppend, List.lookup, beq_eq_false_iff_ne.mpr (Ne.symm h)]
  | cons p rest ih =>
    obtain ⟨k2, v⟩ := p
    by_cases h2 : k2 = k'
    · subst h2
      have h4 : (k == k2) = false := beq_eq_false_iff_ne.mpr (fun he => h he.symm)
      simp [sectionsAppend, List.lookup, h4]
    · simp only [sectionsAppend, if_neg h2]
      by_cases h3 : k == k2
      · simp [List.lookup, h3]
      · have h4 : (k == k2) = false := by simpa using h3
        simp [List.lookup, h4, ih]

theorem sectionsAppend_lookup_self (ss : List (String × List SectionEntry)) (k : String)
    (e : SectionEntry) :
    (sectionsAppend ss k e).lookup k = some (((ss.lookup k).getD []) ++ [e]) := by
  induction ss with
  | nil => simp [sectionsAppend, List.lookup]
  | cons p rest ih =>
    obtain ⟨k2, v⟩ := p
    by_cases h2 : k2 = k
    · subst h2
      simp [sectionsAppend, List.lookup]
    · have h4 : (k == k2) = false := beq_eq_false_iff_ne.mpr (fun he => h2 he.symm)
      simp [sectionsAppend, if_neg h2, List.lookup, h4, ih]

theorem sectionsSetdefault_lookup_ne (ss : List (String × List SectionEntry)) (k' k : String)
    (h : k' ≠ k) :
    (sectionsSetdefault ss k').lookup k = ss.lookup k := by
  unfold sectionsSetdefault
  by_cases hp : (ss.lookup k').isSome
  · simp [hp]
  · simp only [hp, if_false, Bool.false_eq_true]
    exact lookup_append_single_ne ss k' k [] h

-- ---------------------------------------------------------------------------
-- OALD parser: headnote invariants
-- ---------------------------------------------------------------------------

theorem detectSection_snd_ne (tl : String) (p : String × String)
    (h : detectSection tl = some p) : p.2 ≠ "headnote" := by
  unfold detectSection at h
  split_ifs at h <;> simp_all <;> simp [← h]

theorem appendSectionO_fields (st : OState) (key : String) (n : Node) :
    (appendSectionO st key n).before = st.before ∧
    (appendSectionO st key n).frags = st.frags ∧
    (appendSectionO st key n).pending = st.pending ∧
    (appendSectionO st key n).active = st.active := by
  unfold appendSectionO
  by_cases h : nodeTagHtml n = "" <;> simp [h]

theorem appendSectionO_lookup_ne (st : OState) (key : String) (n : Node)
    (h : key ≠ "headnote") :
    (appendSectionO st key n).sections.lookup "headnote" = st.sections.lookup "headnote" := by
  unfold appendSectionO
  by_cases h2 : nodeTagHtml n = ""
  · simp [h2]
  · simp only [if_neg h2]
    exact sectionsAppend_lookup_ne _ _ _ _ h

theorem oaldSenseBranch_fields (st : OState) (n : Node) :
    (oaldSenseBranch st n).before = st.before ∧
    (oaldSenseBranch st n).frags = st.frags ∧
    (oaldSenseBranch st n).pending = st.pending ∧
    (oaldSenseBranch st n).active = none ∧
    (oaldSenseBranch st n).sections = st.sections := by
  unfold oaldSenseBranch
  cases st.posRev <;> simp

theorem appendToLastSense_fields (st : OState) (n : Node) :
    (appendToLastSense st n).before = st.before ∧
    (appendToLastSense st n).frags = st.frags ∧
    (appendToLastSense st n).pending = st.pending ∧
    (appendToLastSense st n).active = st.active ∧
    (appendToLastSense st n).sections = st.sections := by
  unfold appendToLastSense
  by_cases h : nodeTagHtml n = ""
  · simp [h]
  · simp only [h, ite_false, Bool.false_eq_true, if_neg]
    cases hr : st.posRev with
    | nil => simp [h]
    | cons b rest =>
      cases hl : b.senses.getLast? <;> simp [h, hl]

theorem oaldBlockquoteStep_inv (st1 : OState) (child : Node)
    (hp : st1.pending ≠ some "headnote") (ha : st1.active ≠ some "headnote") :
    (oaldBlockquoteStep st1 child).before = st1.before ∧
    (oaldBlockquoteStep st1 child).frags = st1.frags ∧
    (oaldBlockquoteStep st1 child).pending ≠ some "headnote" ∧
    (oaldBlockquoteStep st1 child).active ≠ some "headnote" ∧
    (oaldBlockquoteStep st1 child).sections.lookup "headnote"
      = st1.sections.lookup "headnote" := by
  unfold oaldBlockquoteStep
  cases hd : detectSection (lowerStr (nodeTagText child)) with
  | some p =>
    obtain ⟨kw, sec⟩ := p
    have hsec : sec ≠ "headnote" := detectSection_snd_ne _ _ hd
    simp only [hd]
    by_cases hlab : rstripColons (lowerStr (nodeTagText child)) = kw
    · simp only [hlab, if_pos rfl]
      exact ⟨rfl, rfl, by simp [hsec], by simp [hsec], rfl⟩
    · rw [if_neg hlab]
      obtain ⟨hb, hf, hpp, hac⟩ := appendSectionO_fields { st1 with active := some sec } sec child
      refine ⟨by rw [show ({ appendSectionO { st1 with active := some sec } sec child with
            pending := none } : OState).before
          = (appendSectionO { st1 with active := some sec } sec child).before from rfl, hb],
        by rw [show ({ appendSectionO { st1 with active := some sec } sec child with
            pending := none } : OState).frags
          = (appendSectionO { st1 with active := some sec } sec child).frags from rfl, hf],
        by simp, ?_, ?_⟩
      · rw [show ({ appendSectionO { st1 with active := some sec } sec child with
            pending := none } : OState).active
          = (appendSectionO { st1 with active := some sec } sec child).active from rfl, hac]
        simp [hsec]
      · rw [show ({ appendSectionO { st1 with active := some sec } sec child with
            pending := none } : OState).sections
          = (appendSectionO { st1 with active := some sec } sec child).sections from rfl]
        exact appendSectionO_lookup_ne _ _ _ hsec
  | none =>
    simp only [hd]
    cases hpd : st1.pending with
    | some pkey =>
      have hpk : pkey ≠ "headnote" := fun he => hp (by rw [hpd, he])
      obtain ⟨hb, hf, hpp, hac⟩ := appendSectionO_fields st1 pkey child
      refine ⟨by rw [show ({ appendSectionO st1 pkey child with pending := none } : OState).before
          = (appendSectionO st1 pkey child).before from rfl, hb],
        by rw [show ({ appendSectionO st1 pkey child with pending := none } : OState).frags
          = (appendSectionO st1 pkey child).frags from rfl, hf],
        by simp, ?_, ?_⟩
      · rw [show ({ appendSectionO st1 pkey child with pending := none } : OState).active
          = (appendSectionO st1 pkey child).active from rfl, hac]
        exact ha
      · rw [show ({ appendSectionO st1 pkey child with pending := none } : OState).sections
          = (appendSectionO st1 pkey child).sections from rfl]
        exact appendSectionO_lookup_ne _ _ _ hpk
    | none =>
      cases hac : st1.active with
      | some a =>
        by_cases hcoll : a = "thesaurus" ∨ looksLikeSenseO child = false
        · simp only [if_pos hcoll]
          have hak : a ≠ "headnote" := fun he => ha (by rw [hac, he])
          obtain ⟨hb, hf, hpp, hac2⟩ := appendSectionO_fields st1 a child
          exact ⟨hb, hf, by rw [hpp, hpd]; simp, by rw [hac2, hac]; simp [hak],
                 appendSectionO_lookup_ne _ _ _ hak⟩
        · simp only [if_neg hcoll]
          obtain ⟨hb, hf, hpp, hac2, hsec⟩ := oaldSenseBranch_fields st1 child
          exact ⟨hb, hf, by rw [hpp, hpd]; simp, by rw [hac2]; simp, by rw [hsec]⟩
      | none =>
        by_cases hsense : looksLikeSenseO child = true
        · simp only [if_pos hsense]
          obtain ⟨hb, hf, hpp, hac2, hsec⟩ := oaldSenseBranch_fields st1 child
          exact ⟨hb, hf, by rw [hpp, hpd]; simp, by rw [hac2]; simp, by rw [hsec]⟩
        · simp only [if_neg hsense]
          by_cases hlast : st1.lastSense = true
          · simp only [if_pos hlast]
            obtain ⟨hb, hf, hpp, hac2, hsec⟩ := appendToLastSense_fields st1 child
            exact ⟨hb, hf, by rw [hpp, hpd]; simp, by rw [hac2, hac]; simp, by rw [hsec]⟩
          · simp only [if_neg hlast]
            obtain ⟨hb, hf, hpp, hac2⟩ := appendSectionO_fields st1 "notes" child
            exact ⟨hb, hf, by rw [hpp, hpd]; simp, by rw [hac2, hac]; simp,
                   appendSectionO_lookup_ne _ _ _ (by simp)⟩

theorem flushHead_fields (st : OState) :
    (flushHead st).before = st.before ∧ (flushHead st).pending = st.pending ∧
    (flushHead st).active = st.active ∧ (flushHead st).frags = [] := by
  unfold flushHead
  by_cases he : st.frags.isEmpty
  · have h0 : st.frags = [] := List.isEmpty_iff.mp he
    simp [he, h0]
  · by_cases hh : pyStrip (decodeList st.frags) = "" <;> simp [he, hh]

theorem flushHead_lookup (st : OState) (hs : st.sections.lookup "headnote" = none) :
    (flushHead st).sections.lookup "headnote" = headnoteSec st.frags := by
  unfold flushHead headnoteSec
  by_cases he : st.frags.isEmpty
  · have h0 : st.frags = [] := List.isEmpty_iff.mp he
    have h1 : pyStrip (decodeList ([] : List Node)) = "" := rfl
    simp [he, h0, hs, h1]
  · by_cases hh : pyStrip (decodeList st.frags) = ""
    · simp [he, hh, hs]
    · rw [if_neg he, if_neg hh, if_neg hh,
          show ({ st with
              frags := []
              sections := sectionsAppend st.sections "headnote"
                ⟨normWs (getTextSpace st.frags), none, some (pyStrip (decodeList st.frags))⟩ } :
            OState).sections
          = sectionsAppend st.sections "headnote"
              ⟨normWs (getTextSpace st.frags), none, some (pyStrip (decodeList st.frags))⟩ from rfl,
          sectionsAppend_lookup_self, hs]
      rfl

theorem flushHead_sections_pres (st : OState) (hf : st.frags = []) :
    (flushHead st).sections = st.sections := by
  unfold flushHead
  simp [hf]

theorem oaldStep_after (st : OState) (n : Node)
    (hb : st.before = false) (hf : st.frags = [])
    (hp : st.pending ≠ some "headnote") (ha : st.active ≠ some "headnote") :
    (oaldStep st n).before = false ∧ (oaldStep st n).frags = [] ∧
    (oaldStep st n).pending ≠ some "headnote" ∧ (oaldStep st n).active ≠ some "headnote" ∧
    (oaldStep st n).sections.lookup "headnote" = st.sections.lookup "headnote" := by
  unfold oaldStep
  cases n with
  | text s =>
    simp [hb, hf, hp, ha]
  | elem nm attrs cs =>
    by_cases hk : nm = "k"
    · simp [hk, hb, hf, hp, ha]
    · by_cases hc : nm = "c" ∧ isOrangeC (.elem nm attrs cs) = true
      · simp only [if_neg hk, if_pos hc, hb, Bool.false_eq_true, if_false, ite_false, if_neg]
        simp [hb, hf, hp]
      · by_cases hq : nm = "blockquote"
        · simp only [if_neg hk, if_neg hc, if_pos hq, hb, Bool.false_eq_true, ite_false]
          obtain ⟨ib, ifr, ip, ia, isc⟩ := oaldBlockquoteStep_inv st (.elem nm attrs cs) hp ha
          exact ⟨by rw [ib, hb], by rw [ifr, hf], ip, ia, isc⟩
        · simp only [if_neg hk, if_neg hc, if_neg hq, hb, Bool.false_eq_true, ite_false]
          obtain ⟨ab, af, ap, aa⟩ := appendSectionO_fields st "notes" (.elem nm attrs cs)
          refine ⟨?_, ?_, ?_, ?_, ?_⟩
          · rw [show ({ appendSectionO st "notes" (.elem nm attrs cs) with active := none } :
                OState).before = (appendSectionO st "notes" (.elem nm attrs cs)).before from rfl,
              ab, hb]
          · rw [show ({ appendSectionO st "notes" (.elem nm attrs cs) with active := none } :
                OState).frags = (appendSectionO st "notes" (.elem nm attrs cs)).frags from rfl,
              af, hf]
          · rw [show ({ appendSectionO st "notes" (.elem nm attrs cs) with active := none } :
                OState).pending = (appendSectionO st "notes" (.elem nm attrs cs)).pending from rfl,
              ap]
            exact hp
          · simp
          · rw [show ({ appendSectionO st "notes" (.elem nm attrs cs) with active := none } :
                OState).sections = (appendSectionO st "notes" (.elem nm attrs cs)).sections from rfl]
            exact appendSectionO_lookup_ne _ _ _ (by simp)

theorem oaldFold_after (cs : List Node) : ∀ (st : OState), st.before = false → st.frags = [] →
    st.pending ≠ some "headnote" → st.active ≠ some "headnote" →
    ((flushHead (cs.foldl oaldStep st)).sections).lookup "headnote"
      = st.sections.lookup "headnote" := by
  induction cs with
  | nil =>
    intro st hb hf hp ha
    rw [List.foldl_nil, flushHead_sections_pres st hf]
  | cons n rest ih =>
    intro st hb hf hp ha
    rw [List.foldl_cons]
    obtain ⟨h1, h2, h3, h4, h5⟩ := oaldStep_after st n hb hf hp ha
    rw [ih (oaldStep st n) h1 h2 h3 h4, h5]

theorem oaldFold_before (cs : List Node) : ∀ (st : OState), st.before = true →
    st.pending = none → st.active = none → st.sections.lookup "headnote" = none →
    ((flushHead (cs.foldl oaldStep st)).sections).lookup "headnote"
      = headnoteSec (st.frags ++ oaldCollect cs) := by
  induction cs with
  | nil =>
    intro st hb hp ha hs
    rw [List.foldl_nil, show oaldCollect [] = [] from rfl, List.append_nil]
    exact flushHead_lookup st hs
  | cons n rest ih =>
    intro st hb hp ha hs
    rw [List.foldl_cons]
    cases n with
    | text s =>
      by_cases hsp : pyStrip s = ""
      · have hstep : oaldStep st (.text s) = st := by
          simp [oaldStep, hsp]
        rw [hstep, ih st hb hp ha hs]
        have : oaldCollect (Node.text s :: rest) = oaldCollect rest := by
          simp [oaldCollect, hsp]
        rw [this]
      · have hstep : oaldStep st (.text s) = { st with frags := st.frags ++ [.text s] } := by
          simp [oaldStep, hb, hsp]
        rw [hstep, ih _ (by simpa using hb) (by simpa using hp) (by simpa using ha)
          (by simpa using hs)]
        have : oaldCollect (Node.text s :: rest) = Node.text s :: oaldCollect rest := by
          simp [oaldCollect, hsp]
        rw [this]
        congr 1
        simp
    | elem nm attrs cs2 =>
      by_cases hk : nm = "k"
      · have hstep : oaldStep st (.elem nm attrs cs2) = st := by
          simp [oaldStep, hk]
        rw [hstep, ih st hb hp ha hs]
        have : oaldCollect (Node.elem nm attrs cs2 :: rest) = oaldCollect rest := by
          simp [oaldCollect, hk]
        rw [this]
      · by_cases hc : nm = "c" ∧ isOrangeC (.elem nm attrs cs2) = true
        · obtain ⟨hc1, hc2⟩ := hc
          subst hc1
          have hstep : oaldStep st (.elem "c" attrs cs2)
              = { { flushHead st with before := false } with
                  active := none
                  posRev := ⟨normWs (getTextSpace cs2),
                    decodeNode (.elem "c" attrs cs2), []⟩ ::
                      ({ flushHead st with before := false } : OState).posRev
                  lastSense := false } := by
            simp [oaldStep, hc2, hb]
          rw [hstep]
          obtain ⟨fb, fp, fa, ff⟩ := flushHead_fields st
          set st2 := { { flushHead st with before := false } with
                  active := none
                  posRev := ⟨normWs (getTextSpace cs2),
                    decodeNode (.elem "c" attrs cs2), []⟩ ::
                      ({ flushHead st with before := false } : OState).posRev
                  lastSense := false } with hst2
          have h1 : st2.before = false := rfl
          have h2 : st2.frags = [] := by
            rw [show st2.frags = (flushHead st).frags from rfl, ff]
          have h3 : st2.pending ≠ some "headnote" := by
            rw [show st2.pending = (flushHead st).pending from rfl, fp, hp]
            simp
          have h4 : st2.active ≠ some "headnote" := by
            rw [show st2.active = (none : Option String) from rfl]
            simp
          rw [oaldFold_after rest st2 h1 h2 h3 h4]
          rw [show st2.sections = (flushHead st).sections from rfl, flushHead_lookup st hs]
          have : oaldCollect (Node.elem "c" attrs cs2 :: rest) = [] := by
            simp [oaldCollect, hc2]
          rw [this, List.append_nil]
        · by_cases hq : nm = "blockquote"
          · have hstep : oaldStep st (.elem nm attrs cs2)
                = oaldBlockquoteStep { flushHead st with before := false }
                    (.elem nm attrs cs2) := by
              simp [oaldStep, hk, hc, hq, hb]
            rw [hstep]
            obtain ⟨fb, fp, fa, ff⟩ := flushHead_fields st
            have hp1 : ({ flushHead st with before := false } : OState).pending
                ≠ some "headnote" := by
              rw [show ({ flushHead st with before := false } : OState).pending
                  = (flushHead st).pending from rfl, fp, hp]
              simp
            have ha1 : ({ flushHead st with before := false } : OState).active
                ≠ some "headnote" := by
              rw [show ({ flushHead st with before := false } : OState).active
                  = (flushHead st).active from rfl, fa, ha]
              simp
            obtain ⟨ib, ifr, ip, ia, isc⟩ :=
              oaldBlockquoteStep_inv { flushHead st with before := false }
                (.elem nm attrs cs2) hp1 ha1
            rw [oaldFold_after rest _ (by rw [ib]) (by rw [ifr]; exact ff) ip ia, isc]
            rw [show ({ flushHead st with before := false } : OState).sections
                = (flushHead st).sections from rfl, flushHead_lookup st hs]
            have : oaldCollect (Node.elem nm attrs cs2 :: rest) = [] := by
              simp [oaldCollect, hk, hc, hq]
            rw [this, List.append_nil]
          · have hstep : oaldStep st (.elem nm attrs cs2)
                = { st with frags := st.frags ++ [.elem nm attrs cs2] } := by
              simp [oaldStep, hk, hc, hq, hb]
            rw [hstep, ih _ (by simpa using hb) (by simpa using hp) (by simpa using ha)
              (by simpa using hs)]
            have : oaldCollect (Node.elem nm attrs cs2 :: rest)
                = Node.elem nm attrs cs2 :: oaldCollect rest := by
              simp [oaldCollect, hk, hc, hq]
            rw [this]
            congr 1
            simp

-- ---------------------------------------------------------------------------
-- Concise parser: headnote invariants
-- ---------------------------------------------------------------------------

theorem matchSectionHeader_ne (n : Node) (sec : String)
    (h : matchSectionHeader n = some sec) : sec ≠ "headnote" := by
  unfold matchSectionHeader at h
  split_ifs at h <;> simp_all <;> simp [← h]

theorem addSenseToCurrent_sections (st : CState) (s : Sense) :
    (addSenseToCurrent st s).sections = st.sections ∧
    (addSenseToCurrent st s).cursec = st.cursec := by
  unfold addSenseToCurrent
  cases st.posRev <;> simp

theorem conciseStep_inv (st : CState) (n : Node) (hc : st.cursec ≠ "headnote") :
    (conciseStep st n).cursec ≠ "headnote" ∧
    (conciseStep st n).sections.lookup "headnote" = st.sections.lookup "headnote" := by
  unfold conciseStep
  by_cases hbq : isElemNamed "blockquote" n = true
  · simp only [hbq, if_pos rfl, if_true]
    by_cases htext : nodeTagText n = ""
    · simp [htext, hc]
    · simp only [if_neg htext]
      cases hm : matchSectionHeader n with
      | some sec =>
        have hns := matchSectionHeader_ne n sec hm
        simp only [hm]
        exact ⟨by simpa using hns, sectionsSetdefault_lookup_ne _ _ _ hns⟩
      | none =>
        simp only [hm]
        by_cases hpos : st.cursec = "senses" ∧ looksLikePosHeader n = true
        · simp only [if_pos hpos]
          refine ⟨by simp, ?_⟩
          trivial
        · simp only [if_neg hpos]
          by_cases hnot : st.cursec ≠ "senses"
          · simp only [if_pos hnot]
            exact ⟨by simpa using hc, sectionsAppend_lookup_ne _ _ _ _ hc⟩
          · simp only [if_neg hnot]
            cases hbs : buildSenseConcise n with
            | some s =>
              simp only [hbs]
              obtain ⟨h1, h2⟩ := addSenseToCurrent_sections st s
              exact ⟨by rw [h2]; exact hc, by rw [h1]⟩
            | none =>
              simp only [hbs]
              exact ⟨by simpa using hc, sectionsAppend_lookup_ne _ _ _ _ (by simp)⟩
  · have hbq2 : isElemNamed "blockquote" n = false := by simpa using hbq
    simp [hbq2, hc]

theorem conciseFold_inv (cs : List Node) : ∀ (st : CState), st.cursec ≠ "headnote" →
    ((cs.foldl conciseStep st).sections).lookup "headnote" = st.sections.lookup "headnote" := by
  induction cs with
  | nil => intro st hc; rw [List.foldl_nil]
  | cons n rest ih =>
    intro st hc
    rw [List.foldl_cons]
    obtain ⟨h1, h2⟩ := conciseStep_inv st n hc
    rw [ih _ h1, h2]

-- ---------------------------------------------------------------------------
-- Sanitizer: removed BrE/AmE labels stay removed (helpers)
-- ---------------------------------------------------------------------------

theorem map_lowerChar_idem (l : List Char) :
    l.map (lowerChar ∘ lowerChar) = l.map lowerChar := by
  induction l with
  | nil => rfl
  | cons c rest ih => simp [Function.comp, lowerChar_idem, ih]

theorem lettersOnly_lowerStr (s : String) : lettersOnlyStr (lowerStr s) = lettersOnlyStr s := by
  unfold lettersOnlyStr lowerStr
  rw [show (String.mk (s.data.map lowerChar)).data = s.data.map lowerChar from rfl,
      List.map_map, map_lowerChar_idem]

theorem filtmap_dropWhile (l : List Char) :
    (((l.dropWhile isWsChar).map lowerChar).filter isLowerAlphaChar)
      = ((l.map lowerChar).filter isLowerAlphaChar) := by
  induction l with
  | nil => rfl
  | cons c rest ih =>
    by_cases hw : isWsChar c = true
    · rw [show (c :: rest).dropWhile isWsChar = rest.dropWhile isWsChar by simp [List.dropWhile, hw]]
      rw [ih]
      rw [show (c :: rest).map lowerChar = lowerChar c :: rest.map lowerChar from rfl]
      rw [List.filter_cons]
      simp [isLowerAlpha_lowerChar_of_ws c hw]
    · have hw2 : isWsChar c = false := by simpa using hw
      rw [show (c :: rest).dropWhile isWsChar = c :: rest by simp [List.dropWhile, hw2]]

theorem filtmap_reverse (l : List Char) :
    ((l.reverse.map lowerChar).filter isLowerAlphaChar)
      = ((l.map lowerChar).filter isLowerAlphaChar).reverse := by
  rw [List.map_reverse, List.filter_reverse]

theorem lettersOnly_pyStrip (s : String) : lettersOnlyStr (pyStrip s) = lettersOnlyStr s := by
  unfold lettersOnlyStr pyStrip stripBothL lstripL rstripL
  congr 1
  rw [show (String.mk (List.dropWhile isWsChar (List.dropWhile isWsChar s.data.reverse).reverse)).data
      = List.dropWhile isWsChar (List.dropWhile isWsChar s.data.reverse).reverse from rfl]
  rw [filtmap_dropWhile, filtmap_reverse, filtmap_dropWhile, filtmap_reverse,
      List.reverse_reverse]

theorem shouldDrop_of_bre (s : String) (h : lettersOnlyStr s = "bre") : shouldDrop s = true := by
  unfold shouldDrop
  by_cases h0 : s = ""
  · rw [h0] at h
    exact absurd h (by decide)
  · rw [if_neg h0]
    by_cases h1 : pyStrip s = ""
    · exfalso
      have := lettersOnly_pyStrip s
      rw [h1, h] at this
      exact absurd this.symm (by decide)
    · have hlo : lettersOnlyStr (lowerStr (pyStrip s)) = "bre" := by
        rw [lettersOnly_lowerStr, lettersOnly_pyStrip, h]
      simp [h1, hlo]

theorem dropList_clean_aux (k : Nat) : ∀ (cs : List Node), sizeOf cs ≤ k →
    ∀ s ∈ listStrings (dropList cs).1, shouldDrop s = false := by
  induction k with
  | zero =>
    intro cs hsz
    cases cs with
    | nil => intro s hs; simp [dropList, listStrings] at hs
    | cons hd tl => simp at hsz
  | succ n ih =>
    intro cs hsz
    cases cs with
    | nil => intro s hs; simp [dropList, listStrings] at hs
    | cons hd tl =>
      intro s hs
      rw [dropList] at hs
      have hszt : sizeOf tl ≤ n := by
        have := List.cons.sizeOf_spec hd tl
        omega
      cases hd with
      | text str =>
        rw [dropNode] at hs
        by_cases hdrop : shouldDrop str = true
        · simp only [hdrop, if_true, if_pos rfl] at hs
          exact ih tl hszt s hs
        · have hd2 : shouldDrop str = false := by simpa using hdrop
          simp only [hd2, Bool.false_eq_true, if_false, ite_false] at hs
          rw [show listStrings (Node.text str :: (dropList tl).1)
              = str :: listStrings (dropList tl).1 from rfl] at hs
          rcases List.mem_cons.mp hs with rfl | hs2
          · exact hd2
          · exact ih tl hszt s hs2
      | elem nm a cs2 =>
        rw [dropNode] at hs
        have hszc : sizeOf cs2 ≤ n := by
          have h1 := List.cons.sizeOf_spec (Node.elem nm a cs2) tl
          have h2 := Node.elem.sizeOf_spec nm a cs2
          omega
        by_cases hrem : (dropList cs2).2 = true ∧ getTextSpace (dropList cs2).1 = ""
        · simp only [if_pos hrem] at hs
          exact ih tl hszt s hs
        · simp only [if_neg hrem] at hs
          rw [show listStrings (Node.elem nm a (dropList cs2).1 :: (dropList tl).1)
              = listStrings (dropList cs2).1 ++ listStrings (dropList tl).1 from rfl] at hs
          rcases List.mem_append.mp hs with hs2 | hs2
          · exact ih cs2 hszc s hs2
          · exact ih tl hszt s hs2

-- ---------------------------------------------------------------------------
-- The claims
-- ---------------------------------------------------------------------------

/-- C1 counterexample: a ValueError raised while querying the first source is
not caught (only KeyError is), so `get_def` propagates the exception instead
of treating the source as yielding nothing and returning a string. -/
theorem getDefE_valueError_propagates :
    getDefE (lookupViaParser (fun _ => []) (fun _ => .error .valueError))
        (fun _ => .ok []) (fun _ => []) 3 [] "abandon"
      = some (.error .valueError) := rfl

/-- C1: when neither parser-backed source ever raises ValueError (KeyError,
the lookup-miss signal, is allowed anywhere), `get_def` never propagates an
exception: whenever it returns, it returns a normal result. -/
theorem getDefE_ok_of_no_valueError
    (render : ParsedEntry → List Node) (g1 g2 : String → Except PyErr ParsedEntry)
    (hg1 : ∀ u, g1 u ≠ .error .valueError) (hg2 : ∀ u, g2 u ≠ .error .valueError)
    (s3 : String → List Node) (fuel : Nat) (cache : List (String × String)) (word : String)
    (r : Except PyErr (String × List (String × String)))
    (hr : getDefE (lookupViaParser render g1) (lookupViaParser render g2) s3 fuel cache word
        = some r) :
    ∃ v, r = .ok v :=
  getDefE_ok (lookupViaParser render g1) (lookupViaParser render g2) s3
    (lookupViaParser_ok render g1 hg1) (lookupViaParser_ok render g2 hg2) fuel cache word r hr

theorem getDefE_ok_of_no_valueError_witness :
    ∃ v, (Except.ok ("", [("x", "")]) :
        Except PyErr (String × List (String × String))) = .ok v :=
  getDefE_ok_of_no_valueError (fun _ => []) (fun _ => .error .keyError)
    (fun _ => .error .keyError)
    (fun _ h => PyErr.noConfusion (Except.error.inj h))
    (fun _ h => PyErr.noConfusion (Except.error.inj h))
    (fun _ => []) 2 [] "x" _ rfl

/-- C2 counterexample: the Concise parser keeps a part-of-speech block with no
senses (a green `c` part-of-speech header followed by nothing); only the OALD
parser prunes empty blocks. -/
theorem parseConcise_retains_empty_block :
    (parseConciseHtml "w"
        [Node.elem "blockquote" [] [Node.elem "c" [("c", "green")] [Node.text "noun"]]]).pos_blocks
      = [⟨"noun", "<c c=\"green\">noun</c>", []⟩] ∧
    ((parseConciseHtml "w"
        [Node.elem "blockquote" [] [Node.elem "c" [("c", "green")] [Node.text "noun"]]]).pos_blocks.all
      (fun b => !b.senses.isEmpty)) = false :=
  ⟨rfl, rfl⟩

/-- C2: the OALD parser does prune: every part-of-speech block it returns has
at least one sense. -/
theorem parseOald_blocks_have_senses (w : String) (cs : List Node) :
    ((parseOald w cs).pos_blocks.all (fun b => !b.senses.isEmpty)) = true := by
  rw [List.all_eq_true]
  intro b hb
  have h : (parseOald w cs).pos_blocks
      = ((flushHead (cs.foldl oaldStep ⟨[], true, [], false, none, none, []⟩)).posRev.reverse).filter
          (fun b => !b.senses.isEmpty) := rfl
  rw [h] at hb
  exact (List.mem_filter.mp hb).2

/-- C3 counterexample: a free-text blockquote appearing before any
part-of-speech header or section header is filed under "notes" by the OALD
parser, not accumulated into the "headnote" section. -/
theorem leading_block_not_headnote :
    (parseOald "w" [Node.elem "blockquote" [] [Node.text "hello"]]).sections
      = [("notes", [⟨"hello", none, some "hello"⟩])] := rfl

/-- C3: the Concise parser never produces a "headnote" section at all, while
the OALD parser's headnote consists exactly of the stray text and
miscellaneous tags preceding the first part-of-speech label and first
blockquote (blockquote content itself is classified as senses, named sections
or notes instead). -/
theorem headnote_characterization :
    (∀ (w : String) (cs : List Node),
        (parseConciseHtml w cs).sections.lookup "headnote" = none) ∧
    (∀ (w : String) (cs : List Node),
        (parseOald w cs).sections.lookup "headnote" = headnoteSec (oaldCollect cs)) := by
  constructor
  · intro w cs
    rw [show (parseConciseHtml w cs).sections
        = (cs.foldl conciseStep ⟨"senses", [], []⟩).sections from rfl]
    rw [conciseFold_inv cs ⟨"senses", [], []⟩ (by simp)]
    rfl
  · intro w cs
    rw [show (parseOald w cs).sections
        = (flushHead (cs.foldl oaldStep ⟨[], true, [], false, none, none, []⟩)).sections
        from rfl]
    rw [oaldFold_before cs ⟨[], true, [], false, none, none, []⟩ rfl rfl rfl rfl]
    rfl

/-- C4: validity classification returns valid exactly when the HTML is
non-empty, the extracted plain text is non-empty, and the plain text, trimmed
and compared case-insensitively, starts with none of "see ", "see also ", the
arrow glyph, or "none. →"; in particular a text with such a start is never
valid, whatever follows it. -/
theorem isValidDefinition_iff (d : List Node) :
    isValidDefinition d = true ↔
      (decodeList d ≠ "" ∧ getTextSpace d ≠ "" ∧
       ¬ (pyStartsWith (lowerStr (pyStrip (getTextSpace d))) "see " = true ∨
          pyStartsWith (lowerStr (pyStrip (getTextSpace d))) "see also " = true ∨
          pyStartsWith (lowerStr (pyStrip (getTextSpace d))) "→" = true ∨
          pyStartsWith (lowerStr (pyStrip (getTextSpace d))) "none. →" = true)) := by
  unfold isValidDefinition
  rw [lower_strip_comm]
  split_ifs <;> simp_all

/-- C5: cross-reference following terminates.  If every redirect target the
provider can produce lies (lowercased) in a finite list `L`, then a fuel of
`L.length + 2` suffices: the recursion returns before exhausting the fuel,
because each hop adds the current lowercased key to the visited set and only
continues to unseen targets. -/
theorem lookupCR_terminates (provider : String → List Node) (L : List String)
    (hL : ∀ w t, extractCrossReference (provider w) = some t → lowerStr t ∈ L)
    (word : String) (fuel : Nat) (hfuel : L.length + 2 ≤ fuel) :
    (lookupCRFuel provider fuel word []).isSome = true := by
  apply lookupCR_some_aux provider L hL fuel word []
  have h1 : (L.dedup.filter (fun x => decide (x ∉ ([] : List String)))).length ≤ L.length := by
    calc (L.dedup.filter (fun x => decide (x ∉ ([] : List String)))).length
        ≤ L.dedup.length := List.length_filter_le _ _
      _ ≤ L.length := (List.dedup_sublist L).length_le
  split <;> omega

theorem lookupCR_terminates_witness :
    (lookupCRFuel (fun _ => [Node.text "see b"]) 3 "a" []).isSome = true :=
  lookupCR_terminates (fun _ => [Node.text "see b"]) ["b"]
    (fun w t h => by
      rw [show extractCrossReference [Node.text "see b"] = some "b" from rfl] at h
      obtain rfl := Option.some.inj h
      decide)
    "a" 3 (by decide)

/-- C6: `get_def` is idempotent for non-empty keys: once a first call has
resolved a word, a second call whose key agrees up to trimming and
lowercasing returns the same string and leaves the cache exactly as the first
call left it (so the entry is populated at most once and the first result is
authoritative). -/
theorem getDef_idempotent (oald concise fb : String → List Node) (fuel : Nat)
    (cache : List (String × String)) (w w2 : String)
    (h : pyStrip w ≠ "") (h2 : lowerStr (pyStrip w2) = lowerStr (pyStrip w))
    (r : String) (c2 : List (String × String))
    (hfirst : getDef oald concise fb fuel cache w = (r, c2)) :
    getDef oald concise fb fuel c2 w2 = (r, c2) := by
  have hw2 : pyStrip w2 ≠ "" := by
    intro he
    rw [he] at h2
    exact h (lowerStr_eq_empty _ h2.symm)
  cases hc : List.lookup (lowerStr (pyStrip w)) cache with
  | some v =>
    simp only [getDef, if_neg h, if_neg hw2, h2, hc] at hfirst ⊢
    rw [Prod.mk.injEq] at hfirst
    obtain ⟨h1, hcc⟩ := hfirst
    subst h1; subst hcc
    simp [hc]
  | none =>
    simp only [getDef, if_neg h, if_neg hw2, h2, hc] at hfirst ⊢
    rw [Prod.mk.injEq] at hfirst
    obtain ⟨h1, hcc⟩ := hfirst
    subst h1; subst hcc
    simp [List.lookup]

theorem getDef_idempotent_witness :
    getDef (fun _ => []) (fun _ => []) (fun _ => []) 1 [("word", "")] " word "
      = ("", [("word", "")]) :=
  getDef_idempotent (fun _ => []) (fun _ => []) (fun _ => []) 1 [] "Word" " word "
    (by decide) (by decide) "" [("word", "")] rfl

/-- C7: an empty or whitespace-only word makes `get_def` return the empty
string with the cache unchanged (in this pure model, an unchanged returned
cache is exactly "no entry created", and the early return precedes any cache
read). -/
theorem getDef_blank_noop (oald concise fb : String → List Node) (fuel : Nat)
    (cache : List (String × String)) (word : String) (h : pyStrip word = "") :
    getDef oald concise fb fuel cache word = ("", cache) := by
  unfold getDef
  rw [h]
  simp

theorem getDef_blank_noop_witness :
    pyStrip "   " = "" ∧
      getDef (fun _ => []) (fun _ => []) (fun _ => []) 1 [("word", "w")] "   "
        = ("", [("word", "w")]) :=
  ⟨rfl, getDef_blank_noop _ _ _ _ _ _ rfl⟩

/-- C8: after sanitization no remaining text node has letters-only lowercased
form "bre"; moreover an element emptied of visible text by the removal is
itself removed, repeatedly upward (shown on an element whose only text was
"BrE", and on a nested chain that empties three levels up). -/
theorem strip_removes_bre :
    (∀ (d : List Node),
        ((listStrings (stripUnwantedSegments d)).all
          (fun s => !(lettersOnlyStr s == "bre"))) = true) ∧
    stripUnwantedSegments
        [Node.elem "div" [] [Node.elem "span" [] [Node.text "BrE"],
                             Node.elem "b" [] [Node.text "hello"]]]
      = [Node.elem "div" [] [Node.elem "b" [] [Node.text "hello"]]] ∧
    stripUnwantedSegments
        [Node.elem "article" [] [Node.elem "div" [] [Node.elem "span" []
            [Node.elem "i" [] [Node.text "BrE"]]], Node.text "x"]]
      = [Node.elem "article" [] [Node.text "x"]] := by
  refine ⟨?_, rfl, rfl⟩
  intro d
  rw [List.all_eq_true]
  intro s hs
  have hclean : shouldDrop s = false := by
    apply dropList_clean_aux (sizeOf (removeAudioList d)) (removeAudioList d) le_rfl
    exact hs
  by_cases hb : lettersOnlyStr s = "bre"
  · exact absurd (shouldDrop_of_bre s hb) (by simp [hclean])
  · simp [hb]

/-- C9: for an entry whose rendered plain text is exactly "none. → foo", the
HTML is classified invalid and cross-reference extraction returns "foo" (the
arrow pattern fires anywhere in the text, with no special case for the
"none. →" prefix). -/
theorem noneArrow_invalid_extracts_foo :
    isValidDefinition [Node.text "none. → foo"] = false ∧
      extractCrossReference [Node.text "none. → foo"] = some "foo" :=
  ⟨rfl, rfl⟩

/-- C10: the headword heading (second rendered line) is the escaped trimmed
headword, or the literal "Entry" when the headword is empty or
whitespace-only (an absent headword behaves as the empty string through
`entry_dict.get("headword", "")`). -/
theorem renderParts_headword_heading (entry : ParsedEntry) (headingLevel : Nat) :
    (renderParts entry headingLevel).get? 1 =
      some ("<" ++ ("h" ++ toString (min 6 (max 1 headingLevel))) ++ " class=\"entry-headword\">"
        ++ escapeHtml (if pyStrip entry.headword = "" then "Entry" else pyStrip entry.headword)
        ++ "</" ++ ("h" ++ toString (min 6 (max 1 headingLevel))) ++ ">") := rfl
